import Mathlib

set_option maxRecDepth 10000

/-
  Verification of the TubeTale Analytics backend
  (src/app.py, src/services/gemini_service.py, src/services/data_processor.py).

  Python strings are modelled as `List Char` (or `String` where a value is
  only compared atomically), Python numbers as `Int` / `Rat` (exact
  arithmetic; binary floating point itself is not modelled), Python dicts as
  insertion-ordered association lists with update-in-place semantics, and
  raised exceptions as `Except` errors.  External collaborators (the Gemini
  model client and the oEmbed endpoint) are passed in as oracle arguments.
-/

namespace YTI

/-- ASCII whitespace: the characters matched by the regex class `\s`
    and stripped by Python `str.strip()` (restricted to ASCII). -/
def isSpc (c : Char) : Bool :=
  c = ' ' || c = '\t' || c = '\n' || c = '\r' || c = '\x0b' || c = '\x0c'

/-- Whitespace accepted between tokens by `json.loads`. -/
def isJsonWs (c : Char) : Bool :=
  c = ' ' || c = '\t' || c = '\n' || c = '\r'

/-- Python `str.lower()` (restricted to ASCII, which is all the source
    handles; defined here because the library `toLower` does not reduce in
    the kernel). -/
def charLower (c : Char) : Char :=
  if 'A' ≤ c ∧ c ≤ 'Z' then Char.ofNat (c.toNat + 32) else c

def pyLower (s : String) : String := String.mk (s.toList.map charLower)

/-- Python `str.strip()`. -/
def pyStrip (l : List Char) : List Char :=
  ((l.dropWhile isSpc).reverse.dropWhile isSpc).reverse

/-- Exact fractions with kernel-computable arithmetic (Mathlib `Rat`
    operations normalize through well-founded `Nat.gcd`, which the kernel
    cannot reduce, so concrete runs could not be evaluated with it).
    Values built by the operations below keep `den` positive; they are not
    normalized, and `QF.toRat` gives the rational value. -/
structure QF where
  num : Int
  den : Int
  deriving DecidableEq, Repr

def QF.ofInt (n : Int) : QF := ⟨n, 1⟩

def QF.add (a b : QF) : QF := ⟨a.num * b.den + b.num * a.den, a.den * b.den⟩

def QF.neg (a : QF) : QF := ⟨-a.num, a.den⟩

def QF.sub (a b : QF) : QF := a.add b.neg

def QF.mul (a b : QF) : QF := ⟨a.num * b.num, a.den * b.den⟩

/-- Multiplicative inverse; `0` maps to `0` (division by zero never occurs
    on the inputs exercised by the claims). -/
def QF.inv (a : QF) : QF :=
  if a.num = 0 then ⟨0, 1⟩
  else if 0 < a.num then ⟨a.den, a.num⟩ else ⟨-a.den, -a.num⟩

def QF.div (a b : QF) : QF := a.mul b.inv

/-- Value-level strict order (valid for positive denominators). -/
def QF.blt (a b : QF) : Bool := a.num * b.den < b.num * a.den

/-- Value-level order (valid for positive denominators). -/
def QF.ble (a b : QF) : Bool := a.num * b.den ≤ b.num * a.den

/-- Value-level equality test (valid for positive denominators). -/
def QF.beqv (a b : QF) : Bool := a.num * b.den = b.num * a.den

/-- Floor to an integer (valid for positive denominators). -/
def QF.floor (a : QF) : Int := a.num.fdiv a.den

/-- Python `int(x)`: truncation toward zero. -/
def QF.trunc (a : QF) : Int := a.num.tdiv a.den

/-- The rational value of a fraction. -/
def QF.toRat (a : QF) : Rat := (a.num : Rat) / (a.den : Rat)

instance : OfNat QF n := ⟨QF.ofInt n⟩

/-- JSON values as produced by `json.loads`.  Python distinguishes `int`
    and `float` results, hence the two numeric constructors; float literals
    are modelled by the exact rational value of the decimal literal.  `NaN`,
    `Infinity` and `-Infinity` are accepted by Python's `json.loads` and get
    their own constructors. -/
inductive Json where
  | null
  | bool (b : Bool)
  | intVal (n : Int)
  | floatVal (q : QF)
  | nan
  | inf (neg : Bool)
  | str (s : String)
  | arr (items : List Json)
  | obj (fields : List (String × Json))
  deriving Repr

/-- Python dict assignment `d[k] = v`: update in place if the key exists
    (keeping its position), else append at the end. -/
def pyInsert {α : Type} : List (String × α) → String → α → List (String × α)
  | [], k, v => [(k, v)]
  | (k', v') :: rest, k, v =>
    if k' = k then (k', v) :: rest else (k', v') :: pyInsert rest k v

/-- Python dict lookup `d.get(k)`. -/
def pyGet {α : Type} : List (String × α) → String → Option α
  | [], _ => none
  | (k', v') :: rest, k => if k' = k then some v' else pyGet rest k

/-- `d.get(k)` on a JSON value: `none` when the value is not an object. -/
def objGet (j : Json) (k : String) : Option Json :=
  match j with
  | .obj fs => pyGet fs k
  | _ => none

/-- Python `d[k] = v` on a JSON value; fails (`none`, modelling the raised
    TypeError) when the value is not a dict. -/
def setField (j : Json) (k : String) (v : Json) : Option Json :=
  match j with
  | .obj fs => some (.obj (pyInsert fs k v))
  | _ => none

/-- `d[k] = v` on a value known to be an object (total version). -/
def jsonSet (j : Json) (k : String) (v : Json) : Json :=
  match j with
  | .obj fs => .obj (pyInsert fs k v)
  | other => other

/- ===================== json.loads ===================== -/

def hexVal (c : Char) : Option Nat :=
  if c.isDigit then some (c.toNat - 48)
  else if 'a' ≤ c ∧ c ≤ 'f' then some (c.toNat - 87)
  else if 'A' ≤ c ∧ c ≤ 'F' then some (c.toNat - 55)
  else none

def hex4 (a b c d : Char) : Option Nat := do
  let x1 ← hexVal a
  let x2 ← hexVal b
  let x3 ← hexVal c
  let x4 ← hexVal d
  pure (((x1 * 16 + x2) * 16 + x3) * 16 + x4)

/-- Turn a Unicode code point into a `Char`; a lone surrogate (which Python
    keeps in the `str`, but which no Lean `Char` can carry) is mapped to
    U+FFFD.  No claim exercises lone surrogates. -/
def charOfCode (n : Nat) : Char :=
  if n.isValidChar then Char.ofNat n else Char.ofNat 0xfffd

/-- Body of a JSON string literal (after the opening quote), with the strict
    escape rules of `json.loads` (control characters must be escaped).
    Returns the decoded string and the input after the closing quote. -/
def strLoop : Nat → List Char → List Char → Option (String × List Char)
  | 0, _, _ => none
  | _ + 1, acc, '"' :: rest => some (String.mk acc.reverse, rest)
  | f + 1, acc, '\\' :: e :: rest =>
    match e with
    | '"' => strLoop f ('"' :: acc) rest
    | '\\' => strLoop f ('\\' :: acc) rest
    | '/' => strLoop f ('/' :: acc) rest
    | 'b' => strLoop f ('\x08' :: acc) rest
    | 'f' => strLoop f ('\x0c' :: acc) rest
    | 'n' => strLoop f ('\n' :: acc) rest
    | 'r' => strLoop f ('\r' :: acc) rest
    | 't' => strLoop f ('\t' :: acc) rest
    | 'u' =>
      match rest with
      | h1 :: h2 :: h3 :: h4 :: rest2 =>
        match hex4 h1 h2 h3 h4 with
        | none => none
        | some code =>
          if 0xd800 ≤ code ∧ code ≤ 0xdbff then
            -- possible surrogate pair
            match rest2 with
            | '\\' :: 'u' :: g1 :: g2 :: g3 :: g4 :: rest3 =>
              match hex4 g1 g2 g3 g4 with
              | some lo =>
                if 0xdc00 ≤ lo ∧ lo ≤ 0xdfff then
                  strLoop f
                    (charOfCode (0x10000 + (code - 0xd800) * 0x400 + (lo - 0xdc00)) :: acc)
                    rest3
                else strLoop f (charOfCode code :: acc) rest2
              | none => strLoop f (charOfCode code :: acc) rest2
            | _ => strLoop f (charOfCode code :: acc) rest2
          else strLoop f (charOfCode code :: acc) rest
      | _ => none
    | _ => none
  | f + 1, acc, c :: rest =>
    if c.toNat < 32 then none else strLoop f (c :: acc) rest
  | _ + 1, _, [] => none

def digitsToNat (ds : List Char) : Nat :=
  ds.foldl (fun a c => a * 10 + (c.toNat - 48)) 0

def pow10 (i : Int) : QF :=
  if 0 ≤ i then ⟨(10 ^ i.toNat : Nat), 1⟩ else ⟨1, (10 ^ (-i).toNat : Nat)⟩

/-- JSON number literal, per the grammar used by `json.loads`
    (`-?(0|[1-9][0-9]*)(\.[0-9]+)?([eE][-+]?[0-9]+)?`); a literal with a
    fraction or an exponent becomes a Python float, otherwise an int. -/
def parseNum (l : List Char) : Option (Json × List Char) :=
  let (neg, l1) := match l with
    | '-' :: t => (true, t)
    | _ => (false, l)
  match l1 with
  | c :: t =>
    if ¬ c.isDigit then none
    else
      let (ip, r1) :=
        if c = '0' then ([c], t)
        else (l1.takeWhile Char.isDigit, l1.dropWhile Char.isDigit)
      let (fr, r2) :=
        match r1 with
        | '.' :: t2 =>
          let ds := t2.takeWhile Char.isDigit
          if ds = [] then (([] : List Char), r1) else (ds, t2.dropWhile Char.isDigit)
        | _ => ([], r1)
      let (hasExp, eneg, eds, r3) :=
        match r2 with
        | e :: t2 =>
          if e = 'e' ∨ e = 'E' then
            match t2 with
            | s :: t3 =>
              if s = '+' ∨ s = '-' then
                let ds := t3.takeWhile Char.isDigit
                if ds = [] then (false, false, ([] : List Char), r2)
                else (true, s = '-', ds, t3.dropWhile Char.isDigit)
              else
                let ds := t2.takeWhile Char.isDigit
                if ds = [] then (false, false, ([] : List Char), r2)
                else (true, false, ds, t2.dropWhile Char.isDigit)
            | [] => (false, false, ([] : List Char), r2)
          else (false, false, ([] : List Char), r2)
        | [] => (false, false, ([] : List Char), r2)
      if fr = [] ∧ ¬ hasExp then
        some (.intVal (if neg then -(digitsToNat ip : Int) else (digitsToNat ip : Int)), r3)
      else
        let mant : QF := ⟨(digitsToNat ip * 10 ^ fr.length + digitsToNat fr : Nat), (10 ^ fr.length : Nat)⟩
        let ex : Int := if hasExp then (if eneg then -(digitsToNat eds : Int) else (digitsToNat eds : Int)) else 0
        let q := mant.mul (pow10 ex)
        some (.floatVal (if neg then q.neg else q), r3)
  | [] => none

mutual

/-- One JSON value (recursive descent with fuel; the fuel passed by
    `jsonLoads` is always sufficient). -/
def parseVal : Nat → List Char → Option (Json × List Char)
  | 0, _ => none
  | f + 1, l =>
    match l with
    | '{' :: rest =>
      let r := rest.dropWhile isJsonWs
      match r with
      | '}' :: r2 => some (.obj [], r2)
      | _ => parseMems f r []
    | '[' :: rest =>
      let r := rest.dropWhile isJsonWs
      match r with
      | ']' :: r2 => some (.arr [], r2)
      | _ => parseItems f r []
    | '"' :: rest => (strLoop (rest.length + 1) [] rest).map fun p => (.str p.1, p.2)
    | 't' :: 'r' :: 'u' :: 'e' :: r => some (.bool true, r)
    | 'f' :: 'a' :: 'l' :: 's' :: 'e' :: r => some (.bool false, r)
    | 'n' :: 'u' :: 'l' :: 'l' :: r => some (.null, r)
    | 'N' :: 'a' :: 'N' :: r => some (.nan, r)
    | 'I' :: 'n' :: 'f' :: 'i' :: 'n' :: 'i' :: 't' :: 'y' :: r => some (.inf false, r)
    | '-' :: 'I' :: 'n' :: 'f' :: 'i' :: 'n' :: 'i' :: 't' :: 'y' :: r => some (.inf true, r)
    | _ => parseNum l

/-- Members of a JSON object (duplicate keys resolved like Python dicts:
    first position, last value). -/
def parseMems : Nat → List Char → List (String × Json) → Option (Json × List Char)
  | 0, _, _ => none
  | f + 1, l, acc =>
    match l with
    | '"' :: rest =>
      match strLoop (rest.length + 1) [] rest with
      | some (k, r1) =>
        match r1.dropWhile isJsonWs with
        | ':' :: r2 =>
          match parseVal f (r2.dropWhile isJsonWs) with
          | some (v, r3) =>
            let acc2 := pyInsert acc k v
            match r3.dropWhile isJsonWs with
            | ',' :: r4 => parseMems f (r4.dropWhile isJsonWs) acc2
            | '}' :: r4 => some (.obj acc2, r4)
            | _ => none
          | none => none
        | _ => none
      | none => none
    | _ => none

/-- Items of a JSON array. -/
def parseItems : Nat → List Char → List Json → Option (Json × List Char)
  | 0, _, _ => none
  | f + 1, l, acc =>
    match parseVal f l with
    | some (v, r1) =>
      match r1.dropWhile isJsonWs with
      | ',' :: r2 => parseItems f (r2.dropWhile isJsonWs) (v :: acc)
      | ']' :: r2 => some (.arr (v :: acc).reverse, r2)
      | _ => none
    | none => none

end

/-- Python `json.loads`: skip leading whitespace, parse one value, accept
    only trailing whitespace; `none` models the raised JSONDecodeError. -/
def jsonLoads (l : List Char) : Option Json :=
  let s := l.dropWhile isJsonWs
  match parseVal (2 * l.length + 4) s with
  | some (v, rest) => if rest.dropWhile isJsonWs = [] then some v else none
  | none => none

/- ===================== extract_json ===================== -/

/-- Errors raised by the services (Python exceptions). -/
inductive JErr where
  | emptyResponse
  | parseFailure
  | missingField (f : String)
  | keyError (k : String)
  | typeError
  | invalidUrl
  | noVideoId
  | fetchFailed
  deriving DecidableEq, Repr

/-- The Python error message carried by each exception (`str(e)` as seen by
    the HTTP layer). -/
def JErr.message : JErr → String
  | .emptyResponse => "AI returned an empty response"
  | .parseFailure => "Failed to parse AI response as JSON"
  | .missingField f => "Missing required field: " ++ f
  | .keyError k => k
  | .typeError => "TypeError"
  | .invalidUrl => "Please provide a valid YouTube URL (youtube.com or youtu.be link)"
  | .noVideoId => "Could not extract video ID from URL. Please provide a valid YouTube link."
  | .fetchFailed => "Could not fetch video information. The video may be private, deleted, or the URL is invalid."

def backticks : List Char := ['`', '`', '`']

def markerJson : List Char := ['`', '`', '`', 'j', 's', 'o', 'n']

/-- The lazy regex group (an opening brace, a shortest run of arbitrary
    characters, a closing brace) that must be followed by whitespace and a
    closing triple backtick: scan for the first closing brace after which
    (modulo whitespace) a triple backtick follows; `acc` holds the group
    content so far, reversed. -/
def lazyCap : List Char → List Char → Option (List Char)
  | [], _ => none
  | c :: rest, acc =>
    if c = '}' ∧ backticks.isPrefixOf (rest.dropWhile isSpc) then
      some ('{' :: (acc.reverse ++ ['}']))
    else lazyCap rest (c :: acc)

/-- A match attempt of the fenced-block pattern at the head of `l`:
    the marker, then whitespace, then an opening brace, then the lazy
    group. -/
def tryFence (marker l : List Char) : Option (List Char) :=
  if marker.isPrefixOf l then
    match (l.drop marker.length).dropWhile isSpc with
    | '{' :: t => lazyCap t []
    | _ => none
  else none

/-- `re.search` of the fenced-block pattern: the leftmost position where the
    whole pattern matches, returning the captured group. -/
def fenceSearch (marker : List Char) : List Char → Option (List Char)
  | [] => none
  | c :: rest =>
    match tryFence marker (c :: rest) with
    | some cap => some cap
    | none => fenceSearch marker rest

/-- Strategy 3 of `extract_json`: substring from the first opening brace to
    the last closing brace (applied only when the latter comes after the
    former), parsed as JSON. -/
def extractStage3 (clean : List Char) : Except JErr Json :=
  let t := clean.dropWhile (fun c => c ≠ '{')
  if t.isEmpty then .error .parseFailure
  else
    let u := (t.reverse.dropWhile (fun c => c ≠ '}')).reverse
    if u.isEmpty then .error .parseFailure
    else
      match jsonLoads u with
      | some v => .ok v
      | none => .error .parseFailure

/-- Strategy 2b: unlabeled fenced block. -/
def extractStage2 (clean : List Char) : Except JErr Json :=
  match fenceSearch backticks clean with
  | some cap =>
    match jsonLoads cap with
    | some v => .ok v
    | none => extractStage3 clean
  | none => extractStage3 clean

/-- Strategy 2: fenced block labeled `json`. -/
def extractStage1 (clean : List Char) : Except JErr Json :=
  match fenceSearch markerJson clean with
  | some cap =>
    match jsonLoads cap with
    | some v => .ok v
    | none => extractStage2 clean
  | none => extractStage2 clean

/-- `extract_json` of src/services/gemini_service.py: direct parse of the
    stripped text, then the labeled fence, then the unlabeled fence, then
    the first-brace/last-brace substring; first success wins. -/
def extract_json (text : List Char) : Except JErr Json :=
  if text = [] then .error .emptyResponse
  else
    let clean := pyStrip text
    match jsonLoads clean with
    | some v => .ok v
    | none => extractStage1 clean

/- ===================== data_processor ===================== -/

/-- Truthiness of a Python value (`if trend_pred.get('prediction_available'):`). -/
def jsonTruthy : Json → Bool
  | .null => false
  | .bool b => b
  | .intVal n => n ≠ 0
  | .floatVal q => q.num ≠ 0
  | .nan => true
  | .inf _ => true
  | .str s => s ≠ ""
  | .arr l => !l.isEmpty
  | .obj fs => !fs.isEmpty

/-- Fuelled Euclidean algorithm (`Nat.gcd` itself is well-founded and does
    not reduce in the kernel); the fuel passed by `myGcd` is sufficient. -/
def gcdF : Nat → Nat → Nat → Nat
  | 0, _, b => b
  | f + 1, a, b => if a = 0 then b else gcdF f (b % a) a

def myGcd (a b : Nat) : Nat := gcdF (a + 2) a b

/-- Exact square root of a natural number, `0` when `n` is not a perfect
    square (only perfect squares arise on the inputs exercised here). -/
def sqrtExact (n : Nat) : Nat :=
  ((List.range (n + 2)).filter (fun k => k * k = n)).headD 0

/-- `np.sqrt` on the exact fractions: the exact square root where it exists
    as a rational, else `0`.  `np.sqrt` computes a binary float; every
    square root taken on a claim-relevant input is an exact rational. -/
def qfSqrt (q : QF) : QF :=
  if q.num ≤ 0 then ⟨0, 1⟩
  else
    let g := myGcd q.num.toNat q.den.toNat
    let sd := sqrtExact (q.den.toNat / g)
    if sd = 0 then ⟨0, 1⟩ else ⟨(sqrtExact (q.num.toNat / g) : Nat), (sd : Nat)⟩

/-- Round half to even (what Python `round` does on the exact value; Python
    rounds the binary double, which agrees on the inputs exercised here). -/
def roundHalfEven (q : QF) : Int :=
  let f := q.floor
  let r := q.sub ⟨f, 1⟩
  if r.blt ⟨1, 2⟩ then f
  else if (⟨1, 2⟩ : QF).blt r then f + 1
  else if f % 2 = 0 then f else f + 1

/-- Python `round(x, 2)`. -/
def pyRound2 (q : QF) : QF := ⟨roundHalfEven (q.mul ⟨100, 1⟩), 100⟩

/-- Python `round(x, 1)`. -/
def pyRound1 (q : QF) : QF := ⟨roundHalfEven (q.mul ⟨10, 1⟩), 10⟩

def sumQ : List QF → QF
  | [] => ⟨0, 1⟩
  | x :: rest => x.add (sumQ rest)

/-- `Series.mean()`. -/
def qfMean (xs : List QF) : QF := (sumQ xs).div ⟨(xs.length : Int), 1⟩

def qfMax (a b : QF) : QF := if a.ble b then b else a

def qfMin (a b : QF) : QF := if a.ble b then a else b

/-- Numeric-string parsing as done by `pd.to_numeric` (optional sign,
    decimal digits, optional fraction and exponent, surrounding whitespace
    allowed). -/
def parseNumStr (l : List Char) : Option QF :=
  let l1 := pyStrip l
  let (neg, l2) := match l1 with
    | '-' :: t => (true, t)
    | '+' :: t => (false, t)
    | _ => (false, l1)
  let ip := l2.takeWhile Char.isDigit
  let r1 := l2.dropWhile Char.isDigit
  let (fr, r2) := match r1 with
    | '.' :: t => (t.takeWhile Char.isDigit, t.dropWhile Char.isDigit)
    | _ => ([], r1)
  let (eok, ex, r3) := match r2 with
    | e :: t =>
      if e = 'e' ∨ e = 'E' then
        let (eneg, t2) := match t with
          | '-' :: t2 => (true, t2)
          | '+' :: t2 => (false, t2)
          | _ => (false, t)
        let eds := t2.takeWhile Char.isDigit
        if eds = [] then (false, (0 : Int), r2)
        else (true, (if eneg then -(digitsToNat eds : Int) else (digitsToNat eds : Int)), t2.dropWhile Char.isDigit)
      else (true, 0, r2)
    | [] => (true, 0, r2)
  if ip = [] ∧ fr = [] then none
  else if ¬ eok ∨ r3 ≠ [] then none
  else
    let mant : QF := ⟨(digitsToNat ip * 10 ^ fr.length + digitsToNat fr : Nat), (10 ^ fr.length : Nat)⟩
    let q := mant.mul (pow10 ex)
    some (if neg then q.neg else q)

/-- A cell of the growth-timeline DataFrame after
    `pd.to_numeric(errors='coerce')`: numeric values and bools pass through,
    numeric strings are parsed, everything else is coerced to NaN (`none`). -/
def jsonToNumeric : Json → Option QF
  | .intVal n => some ⟨n, 1⟩
  | .floatVal q => some q
  | .bool b => some (if b then ⟨1, 1⟩ else ⟨0, 1⟩)
  | .str s => parseNumStr s.toList
  | _ => none

/-- One row of the growth-timeline DataFrame. -/
structure GrowthRow where
  year : QF
  subscribers : QF
  videos : QF
  deriving DecidableEq, Repr

/-- A timeline entry becomes a row when all three cells are numeric after
    coercion; otherwise the row is dropped by `dropna()`.  (An entry lacking
    a key has a NaN cell; a non-dict entry is likewise modelled as dropped —
    no claim exercises non-dict entries.) -/
def toRow (e : Json) : Option GrowthRow :=
  match (objGet e "year").bind jsonToNumeric,
        (objGet e "subscribers").bind jsonToNumeric,
        (objGet e "videos").bind jsonToNumeric with
  | some y, some s, some v =>
    -- a fraction with a nonpositive denominator represents no Python number
    -- (neither the JSON parser nor the numeric coercions ever build one)
    if 0 < y.den ∧ 0 < s.den ∧ 0 < v.den then some ⟨y, s, v⟩ else none
  | _, _, _ => none

/-- Row order used by `df.sort_values('year')`. -/
def rowle (a b : GrowthRow) : Prop := (a.year.ble b.year) = true

instance : DecidableRel rowle := fun _ _ => instDecidableEqBool _ _

/-- `create_growth_dataframe`: coerce the three columns to numbers, drop
    rows with missing data, sort by year.  (`sort_values` keeps the input
    order of equal years on the small inputs exercised here, like the
    stable insertion sort used in the model.) -/
def create_growth_dataframe (tl : List Json) : List GrowthRow :=
  if tl.isEmpty then []
  else List.insertionSort rowle (tl.filterMap toRow)

/-- `Series.pct_change() * 100`: pandas computes `x / x.shift() - 1`; the
    first (NaN) entry is already omitted.  Division by an exactly-zero
    previous value is modelled as 0 (a float would give ±inf/NaN; no claim
    exercises a zero predecessor). -/
def pctChanges : List QF → List QF
  | x :: y :: rest => ((y.div x).sub (QF.ofInt 1)).mul (QF.ofInt 100) :: pctChanges (y :: rest)
  | _ => []

/-- `calculate_growth_rate` of src/services/data_processor.py. -/
def calculate_growth_rate (df : List GrowthRow) : Json :=
  if df.length < 2 then
    .obj [("avg_subscriber_growth", .floatVal ⟨0, 1⟩),
          ("avg_video_growth", .floatVal ⟨0, 1⟩),
          ("growth_trend", .str "insufficient_data")]
  else
    let avgS := qfMean (pctChanges (df.map (·.subscribers)))
    let avgV := qfMean (pctChanges (df.map (·.videos)))
    let trend :=
      if (QF.ofInt 10).blt avgS then "rapid_growth"
      else if (QF.ofInt 0).blt avgS then "steady_growth"
      else if (QF.ofInt (-5)).blt avgS then "stable"
      else "declining"
    let latest := df.getLastD ⟨⟨0, 1⟩, ⟨0, 1⟩, ⟨0, 1⟩⟩
    .obj [("avg_subscriber_growth", .floatVal (pyRound2 avgS)),
          ("avg_video_growth", .floatVal (pyRound2 avgV)),
          ("growth_trend", .str trend),
          ("latest_subscribers", .intVal latest.subscribers.trunc),
          ("latest_videos", .intVal latest.videos.trunc)]

/-- Index/subscriber pairs (`x = range(len(df))`, `y = df['subscribers']`). -/
def olsData (df : List GrowthRow) : List (QF × QF) :=
  ((List.range df.length).map (fun i : Nat => (⟨(i : Int), 1⟩ : QF))).zip
    (df.map (·.subscribers))

def sumFst (L : List (QF × QF)) : QF := sumQ (L.map (·.1))
def sumSnd (L : List (QF × QF)) : QF := sumQ (L.map (·.2))
def sumFstSq (L : List (QF × QF)) : QF := sumQ (L.map fun p => p.1.mul p.1)
def sumProd (L : List (QF × QF)) : QF := sumQ (L.map fun p => p.1.mul p.2)

/-- Slope of the degree-1 least-squares fit computed by `np.polyfit(x, y, 1)`
    (the closed form of the unique least-squares solution; theorem
    `trend_prediction_spec` proves the optimality that justifies this
    embedding of `polyfit`). -/
def olsSlope (L : List (QF × QF)) : QF :=
  let n : QF := ⟨(L.length : Int), 1⟩
  ((n.mul (sumProd L)).sub ((sumFst L).mul (sumSnd L))).div
    ((n.mul (sumFstSq L)).sub ((sumFst L).mul (sumFst L)))

/-- Intercept of the degree-1 least-squares fit. -/
def olsIntercept (L : List (QF × QF)) : QF :=
  let n : QF := ⟨(L.length : Int), 1⟩
  ((sumSnd L).sub ((olsSlope L).mul (sumFst L))).div n

/-- Residual sum of squares of the line `y = a*x + b` over the data. -/
def sse (L : List (QF × QF)) (a b : QF) : QF :=
  sumQ (L.map fun p => (p.2.sub ((a.mul p.1).add b)).mul (p.2.sub ((a.mul p.1).add b)))

/-- Total sum of squares around the mean of `y`. -/
def sstot (L : List (QF × QF)) : QF :=
  let ym := (sumSnd L).div ⟨(L.length : Int), 1⟩
  sumQ (L.map fun p => (p.2.sub ym).mul (p.2.sub ym))

/-- R² reported by `calculate_trend_prediction`: `1 - ss_res / ss_tot` as
    floating point computes it.  When the subscriber column is constant,
    `ss_tot` is zero and numpy's `0.0 / 0.0` is NaN (`1 - NaN` stays NaN; in
    exact arithmetic `ss_res` is then exactly 0 as well, since the fitted
    line passes through every point); `none` models that NaN outcome. -/
def olsR2 (L : List (QF × QF)) : Option QF :=
  if (sstot L).num = 0 then none
  else some ((QF.ofInt 1).sub ((sse L (olsSlope L) (olsIntercept L)).div (sstot L)))

/-- A float `<` comparison whose right side may be NaN: every comparison
    with NaN is False, so a NaN R² falls through both strength thresholds. -/
def qltN (q : QF) : Option QF → Bool
  | none => false
  | some r => q.blt r

/-- The reported `float(r_squared)` (NaN for a constant subscriber column). -/
def jsonOfR2 : Option QF → Json
  | none => .nan
  | some r => .floatVal r

/-- `calculate_trend_prediction` of src/services/data_processor.py
    (`periods` defaults to 1 at its only call site). -/
def calculate_trend_prediction (df : List GrowthRow) (periods : Nat) : Json :=
  if df.length < 3 then .obj [("prediction_available", .bool false)]
  else
    let L := olsData df
    let slope := olsSlope L
    let intercept := olsIntercept L
    let r2 := olsR2 L
    let strength :=
      if qltN ⟨7, 10⟩ r2 then "strong"
      else if qltN ⟨4, 10⟩ r2 then "moderate" else "weak"
    let pred : Json :=
      if periods > 0 then .intVal ((slope.mul ⟨(df.length : Int), 1⟩).add intercept).trunc
      else .null
    .obj [("prediction_available", .bool true),
          ("slope", .floatVal slope),
          ("r_squared", jsonOfR2 r2),
          ("trend_strength", .str strength),
          ("predicted_next_year", pred)]

/-- Statistics of `calculate_battle_statistics`.  `varS` is the sample
    variance (`ddof = 1`); the reported `std_dev` is its (irrational in
    general) square root, so the two comparisons of the source are carried
    as the exact equivalents `std < 10 ↔ var < 100` and
    `diff > std ↔ diff² > var` (valid since `diff = max − second ≥ 0`). -/
inductive BattleStats where
  | insufficientData
  | stats (meanScore : QF) (varS : QF) (scoreRange : QF)
      (close : Bool) (decisive : Bool) (diff : QF)
  deriving DecidableEq, Repr

/-- Numeric cells of the `overall` column (pandas treats bools as numeric). -/
def jsonNumQ : Json → Option QF
  | .intVal n => some ⟨n, 1⟩
  | .floatVal q => some q
  | .bool b => some (if b then ⟨1, 1⟩ else ⟨0, 1⟩)
  | _ => none

/-- Collect the present cells, requiring each present cell to be numeric
    (a non-numeric cell makes the pandas reductions raise); absent cells
    are NaN and skipped by the pandas reductions. -/
def allNumCells : List (Option Json) → Option (List QF)
  | [] => some []
  | none :: rest => allNumCells rest
  | some v :: rest =>
    match jsonNumQ v with
    | some q => (allNumCells rest).map (q :: ·)
    | none => none

def qfDescLe (a b : QF) : Prop := (b.ble a) = true

instance : DecidableRel qfDescLe := fun _ _ => instDecidableEqBool _ _

def sortDescQ (vals : List QF) : List QF := List.insertionSort qfDescLe vals

/-- `calculate_battle_statistics` of src/services/data_processor.py.
    Fewer than 2 valid cells make `nlargest(2).iloc[1]` raise (modelled as
    an error); no claim exercises that edge. -/
def calculate_battle_statistics (scores : List Json) : Except JErr BattleStats :=
  if scores.length < 2 then .ok .insufficientData
  else
    let cells := scores.map (fun s => objGet s "overall")
    if cells.all (·.isNone) then .error (.keyError "overall")
    else
      match allNumCells cells with
      | none => .error .typeError
      | some vals =>
        if vals.length < 2 then .error .typeError
        else
          let m := qfMean vals
          let varS := (sumQ (vals.map fun x => (x.sub m).mul (x.sub m))).div ⟨(vals.length : Int) - 1, 1⟩
          let sorted := sortDescQ vals
          let top := sorted.getD 0 ⟨0, 1⟩
          let second := sorted.getD 1 ⟨0, 1⟩
          let bot := sorted.getLastD ⟨0, 1⟩
          let diff := top.sub second
          .ok (.stats m varS (top.sub bot) (varS.blt ⟨100, 1⟩) (varS.blt (diff.mul diff)) diff)

def topicDescLe (a b : Json × QF) : Prop := (b.2.ble a.2) = true

instance : DecidableRel topicDescLe := fun _ _ => instDecidableEqBool _ _

/-- Values of the `value` column; a topic whose `value` is missing or
    non-numeric makes the pandas arithmetic raise (modelled as `none`). -/
def topicVals : List Json → Option (List (Json × QF))
  | [] => some []
  | t :: rest =>
    match (objGet t "value").bind jsonNumQ with
    | some q => (topicVals rest).map ((t, q) :: ·)
    | none => none

/-- `normalize_topic_distribution` of src/services/data_processor.py:
    add a percentage column (0 when the total is not positive), sort by
    value descending, return the records. -/
def normalize_topic_distribution (topics : List Json) : Except JErr (List Json) :=
  if topics.isEmpty then .ok []
  else
    match topicVals topics with
    | none => .error .typeError
    | some pairs =>
      let total := sumQ (pairs.map (·.2))
      let withPct := pairs.map fun p =>
        (jsonSet p.1 "percentage"
          (.floatVal (if (⟨0, 1⟩ : QF).blt total then pyRound2 ((p.2.div total).mul ⟨100, 1⟩) else ⟨0, 1⟩)), p.2)
      .ok ((List.insertionSort topicDescLe withPct).map (·.1))

/-- `calculate_confidence_interval` of src/services/data_processor.py
    (`sample_size = 100` and `confidence = 0.95` at its only call site). -/
def calculate_confidence_interval (score : QF) (sampleSize : Nat) (confidence : QF) : Json :=
  let p := score.div ⟨100, 1⟩
  let se := qfSqrt ((p.mul ((QF.ofInt 1).sub p)).div ⟨(sampleSize : Int), 1⟩)
  let z : QF :=
    if confidence.beqv ⟨95, 100⟩ then ⟨196, 100⟩
    else if confidence.beqv ⟨99, 100⟩ then ⟨2576, 1000⟩ else ⟨1645, 1000⟩
  let margin := (z.mul se).mul ⟨100, 1⟩
  let lower := qfMax ⟨0, 1⟩ (score.sub margin)
  let upper := qfMin ⟨100, 1⟩ (score.add margin)
  .obj [("score", .floatVal (pyRound1 score)),
        ("lower_bound", .floatVal (pyRound1 lower)),
        ("upper_bound", .floatVal (pyRound1 upper)),
        ("margin_of_error", .floatVal (pyRound1 margin))]

/-- The timeline list handed to `create_growth_dataframe` (a non-array
    `growthTimeline` would make `pd.DataFrame` misbehave; outside every
    claim, modelled as an empty timeline). -/
def timelineOf (fs : List (String × Json)) : List Json :=
  match pyGet fs "growthTimeline" with
  | some (.arr l) => l
  | _ => []

/-- `channel_data['growthStatistics'] = growth_stats`. -/
def growthPart (fs : List (String × Json)) : Json :=
  Json.obj (pyInsert fs "growthStatistics"
    (calculate_growth_rate (create_growth_dataframe (timelineOf fs))))

/-- `if trend_pred.get('prediction_available'): channel_data['trendPrediction'] = trend_pred`. -/
def trendPart (fs : List (String × Json)) : Json :=
  if jsonTruthy ((objGet (calculate_trend_prediction (create_growth_dataframe (timelineOf fs)) 1)
      "prediction_available").getD .null) then
    jsonSet (growthPart fs) "trendPrediction"
      (calculate_trend_prediction (create_growth_dataframe (timelineOf fs)) 1)
  else growthPart fs

/-- The topic-distribution normalization step of `validate_channel_data`. -/
def topicStep (j : Json) : Except JErr Json :=
  match objGet j "topicAnalysis" with
  | some ta =>
    match objGet ta "topicDistribution" with
    | some (.arr topics) =>
      (normalize_topic_distribution topics).map fun recs =>
        jsonSet j "topicAnalysis" (jsonSet ta "topicDistribution" (.arr recs))
    | some _ => .error .typeError
    | none => .ok j
  | none => .ok j

/-- `validate_channel_data` of src/services/data_processor.py. -/
def validate_channel_data (cd : Json) : Except JErr Json :=
  match cd with
  | .obj fs =>
    if (pyGet fs "channelName").isNone then .error (.missingField "channelName")
    else if (pyGet fs "stats").isNone then .error (.missingField "stats")
    else if (pyGet fs "growthTimeline").isNone then .error (.missingField "growthTimeline")
    else topicStep (trendPart fs)
  | _ => .error (.missingField "channelName")

/- ===================== gemini_service ===================== -/

/-- A grounding source (`{title, uri}`). -/
structure Source where
  title : String
  uri : String
  deriving DecidableEq, Repr

def sourceJson (s : Source) : Json := .obj [("title", .str s.title), ("uri", .str s.uri)]

/-- One response of the external Gemini client: the text and the grounding
    sources collected from the candidate metadata (the duck-typed traversal
    of optional fields collapses to this list). -/
structure ModelResponse where
  text : String
  sources : List Source

/-- The external model client, as an oracle giving the response of the
    n-th `generate_content` call of the process. -/
def Oracle : Type := Nat → ModelResponse

/-- Process state: the module-level `cache` dict and the number of model
    invocations made so far. -/
structure SysState where
  cache : List (String × Json)
  calls : Nat
  deriving Repr

def dedupGo (seen : List String) : List Source → List Source
  | [] => []
  | s :: rest =>
    if seen.contains s.uri then dedupGo seen rest
    else s :: dedupGo (s.uri :: seen) rest

/-- Source deduplication by `uri`, keeping first-seen order. -/
def dedupSources (l : List Source) : List Source := dedupGo [] l

/-- `analyze_channel` of src/services/gemini_service.py: case-insensitive
    cache lookup, else one model call, JSON extraction, validation, source
    attachment, cache write. -/
def analyze_channel (o : Oracle) (name : String) (st : SysState) :
    Except JErr Json × SysState :=
  match pyGet st.cache ("channel:" ++ pyLower name) with
  | some v => (.ok v, st)
  | none =>
    match extract_json (o st.calls).text.toList with
    | .error e => (.error e, ⟨st.cache, st.calls + 1⟩)
    | .ok cdRaw =>
      match validate_channel_data cdRaw with
      | .error e => (.error e, ⟨st.cache, st.calls + 1⟩)
      | .ok cd =>
        match setField cd "sources" (.arr ((dedupSources (o st.calls).sources).map sourceJson)) with
        | none => (.error .typeError, ⟨st.cache, st.calls + 1⟩)
        | some cd2 =>
          (.ok cd2, ⟨pyInsert st.cache ("channel:" ++ pyLower name) cd2, st.calls + 1⟩)

/-- The list comprehension `[analyze_channel(name) for name in channel_names]`
    (sequential, sharing cache and aborting on the first failure). -/
def analyzeAll (o : Oracle) : List String → SysState → Except JErr (List Json) × SysState
  | [], st => (.ok [], st)
  | n :: rest, st =>
    match analyze_channel o n st with
    | (.error e, st1) => (.error e, st1)
    | (.ok c, st1) =>
      match analyzeAll o rest st1 with
      | (.error e, st2) => (.error e, st2)
      | (.ok cs, st2) => (.ok (c :: cs), st2)

/-- `', '.join([c['channelName'] for c in channels])` of the synthesis
    prompt: each channel needs a string `channelName` (a missing key raises
    KeyError, a non-string one raises on join). -/
def joinedNames : List Json → Except JErr String
  | [] => .ok ""
  | c :: rest =>
    match objGet c "channelName" with
    | some (.str s) => (joinedNames rest).map (fun r => s ++ ", " ++ r)
    | some _ => .error .typeError
    | none => .error (.keyError "channelName")

/-- The dict returned by `run_battle`. -/
structure BattleResult where
  channels : List Json
  scores : List Json
  verdict : Json
  statistics : BattleStats
  deriving Repr

/-- `run_battle` of src/services/gemini_service.py: analyze every channel,
    build the synthesis prompt, one synthesis model call, extract JSON,
    battle statistics over the returned scores, assemble.  (Accessing
    `synthesis['scores']` on a non-dict raises; `pd.DataFrame` of a
    non-list misbehaves; both are modelled as failures.) -/
def run_battle (o : Oracle) (names : List String) (st : SysState) :
    Except JErr BattleResult × SysState :=
  match analyzeAll o names st with
  | (.error e, st1) => (.error e, st1)
  | (.ok channels, st1) =>
    match joinedNames channels with
    | .error e => (.error e, st1)
    | .ok _ =>
      match extract_json (o st1.calls).text.toList with
      | .error e => (.error e, ⟨st1.cache, st1.calls + 1⟩)
      | .ok synthesis =>
        match objGet synthesis "scores" with
        | none => (.error (.keyError "scores"), ⟨st1.cache, st1.calls + 1⟩)
        | some (.arr scores) =>
          match calculate_battle_statistics scores with
          | .error e => (.error e, ⟨st1.cache, st1.calls + 1⟩)
          | .ok stats =>
            match objGet synthesis "verdict" with
            | none => (.error (.keyError "verdict"), ⟨st1.cache, st1.calls + 1⟩)
            | some verdict =>
              (.ok ⟨channels, scores, verdict, stats⟩, ⟨st1.cache, st1.calls + 1⟩)
        | some _ => (.error .typeError, ⟨st1.cache, st1.calls + 1⟩)

/- ===================== truth analysis ===================== -/

/-- `s1 in s2` on Python strings. -/
def containsSub (pat : List Char) : List Char → Bool
  | [] => pat.isEmpty
  | c :: rest => pat.isPrefixOf (c :: rest) || containsSub pat rest

/-- The character class `[a-zA-Z0-9_-]` of the video-id patterns. -/
def isIdChar (c : Char) : Bool :=
  ('a' ≤ c && c ≤ 'z') || ('A' ≤ c && c ≤ 'Z') || c.isDigit || c = '_' || c = '-'

/-- A match attempt of one URL-shape alternative at the head of `l`:
    the literal prefix followed by exactly 11 id characters. -/
def tryId (l pre : List Char) : Option (List Char) :=
  if pre.isPrefixOf l then
    if ((l.drop pre.length).take 11).length = 11 ∧ ((l.drop pre.length).take 11).all isIdChar then
      some ((l.drop pre.length).take 11)
    else none
  else none

/-- `re.search` over alternatives: leftmost position, alternatives tried in
    order at each position (the four prefixes are pairwise non-overlapping,
    so the order never matters). -/
def searchIds (pres : List (List Char)) : List Char → Option (List Char)
  | [] => none
  | c :: rest =>
    match pres.findSome? (tryId (c :: rest)) with
    | some id => some id
    | none => searchIds pres rest

/-- `extract_video_id` of src/services/gemini_service.py. -/
def extract_video_id (url : String) : Option String :=
  match searchIds ["youtube.com/watch?v=".toList, "youtu.be/".toList,
      "youtube.com/embed/".toList, "youtube.com/v/".toList] url.toList with
  | some id => some (String.mk id)
  | none => (searchIds ["youtube.com/shorts/".toList] url.toList).map String.mk

/-- The `{title, author}` pair returned by `fetch_video_metadata`
    (an external oEmbed call; its outcome is passed in as an oracle). -/
structure Metadata where
  title : String
  author : String
  deriving DecidableEq, Repr

/-- The `scoreConfidence` attachment of `analyze_video_truth` (done only
    when a `truthScore` key is present; a non-numeric score raises in
    `score / 100.0`). -/
def withConfidence (a2 : Json) : Except JErr Json :=
  match objGet a2 "truthScore" with
  | some ts =>
    match jsonNumQ ts with
    | some q =>
      .ok (jsonSet a2 "scoreConfidence" (calculate_confidence_interval q 100 ⟨95, 100⟩))
    | none => .error .typeError
  | none => .ok a2

/-- `analyze_video_truth` of src/services/gemini_service.py: URL check,
    video-id extraction, metadata fetch, one model call, JSON extraction,
    forced overwrite of title/creator, confidence interval when a
    `truthScore` is present, deduplicated references. -/
def analyze_video_truth (input : String) (fetched : Option Metadata)
    (resp : ModelResponse) : Except JErr Json :=
  if (containsSub "youtube.com/".toList (pyLower input).toList
      || containsSub "youtu.be/".toList (pyLower input).toList) = false then
    .error .invalidUrl
  else
    match extract_video_id input with
    | none => .error .noVideoId
    | some _ =>
      match fetched with
      | none => .error .fetchFailed
      | some m =>
        match extract_json resp.text.toList with
        | .error e => .error e
        | .ok analysis =>
          match setField analysis "videoTitle" (.str m.title) with
          | none => .error .typeError
          | some a1 =>
            match setField a1 "creatorName" (.str m.author) with
            | none => .error .typeError
            | some a2 =>
              match withConfidence a2 with
              | .error e => .error e
              | .ok a3 =>
                .ok (jsonSet a3 "references"
                  (.arr ((dedupSources resp.sources).map sourceJson)))

/- ===================== HTTP layer (app.py) ===================== -/

/-- An HTTP response of the battle endpoint. -/
inductive ApiResp where
  | okBattle (br : BattleResult)
  | err (code : Nat) (msg : String)
  deriving Repr

/-- `[ch['channelName'] if isinstance(ch, dict) else ch for ch in channels]`
    (evaluated before `run_battle`; a failing entry raises there, before
    any model call). -/
def extractNames : List Json → Except JErr (List String)
  | [] => .ok []
  | ch :: rest =>
    match ch with
    | .obj fs =>
      match pyGet fs "channelName" with
      | some (.str s) => (extractNames rest).map (s :: ·)
      | some _ => .error .typeError
      | none => .error (.keyError "channelName")
    | .str s => (extractNames rest).map (s :: ·)
    | _ => .error .typeError

/-- `api_run_battle` of src/app.py: requires a non-empty JSON array of 2–5
    entries before extracting names and calling `run_battle`; any exception
    maps to a 500 response. -/
def api_run_battle (body : Option Json) (o : Oracle) (st : SysState) :
    ApiResp × SysState :=
  match body with
  | some (.arr l) =>
    if l.isEmpty then (.err 400 "Channels array is required", st)
    else if l.length < 2 ∨ l.length > 5 then (.err 400 "Please provide 2-5 channels", st)
    else
      match extractNames l with
      | .error e => (.err 500 e.message, st)
      | .ok names =>
        match run_battle o names st with
        | (.ok br, st2) => (.okBattle br, st2)
        | (.error e, st2) => (.err 500 e.message, st2)
  | _ => (.err 400 "Channels array is required", st)

/- ===================== helper lemmas ===================== -/

theorem pyGet_pyInsert_self {α : Type} (fs : List (String × α)) (k : String) (v : α) :
    pyGet (pyInsert fs k v) k = some v := by
  induction fs with
  | nil => simp [pyInsert, pyGet]
  | cons p rest ih =>
    obtain ⟨k', v'⟩ := p
    by_cases hk : k' = k <;> simp [pyInsert, pyGet, hk, ih]

theorem pyGet_pyInsert_ne {α : Type} (fs : List (String × α)) (k : String) (v : α)
    (k2 : String) (h : k2 ≠ k) : pyGet (pyInsert fs k v) k2 = pyGet fs k2 := by
  induction fs with
  | nil =>
    have h2 : ¬ k = k2 := fun he => h he.symm
    simp [pyInsert, pyGet, h2]
  | cons p rest ih =>
    obtain ⟨k', v'⟩ := p
    by_cases hk : k' = k
    · subst hk
      have h2 : ¬ k' = k2 := fun he => h (he.symm ▸ rfl)
      simp [pyInsert, pyGet, h2]
    · by_cases hk2 : k' = k2 <;> simp [pyInsert, pyGet, hk, hk2, h, ih]

theorem objGet_jsonSet_self (fs : List (String × Json)) (k : String) (v : Json) :
    objGet (jsonSet (.obj fs) k v) k = some v := by
  simp [jsonSet, objGet, pyGet_pyInsert_self]

theorem objGet_jsonSet_ne (j : Json) (k : String) (v : Json) (k2 : String) (h : k2 ≠ k) :
    objGet (jsonSet j k v) k2 = objGet j k2 := by
  cases j <;> simp [jsonSet, objGet]
  exact pyGet_pyInsert_ne _ _ _ _ h

/- ===================== C3 ===================== -/

/-- C3: whenever `analyze_video_truth` returns a report, the report's
    `videoTitle` and `creatorName` equal the title and author fetched from
    the oEmbed endpoint, regardless of what the model's JSON contained. -/
theorem truth_overrides_metadata (input : String) (m : Metadata)
    (resp : ModelResponse) (out : Json)
    (h : analyze_video_truth input (some m) resp = .ok out) :
    objGet out "videoTitle" = some (.str m.title) ∧
    objGet out "creatorName" = some (.str m.author) := by
  unfold analyze_video_truth at h
  split at h
  · exact absurd h (by simp)
  split at h
  · exact absurd h (by simp)
  split at h
  · exact absurd h (by simp)
  next fopt m2 hm =>
    injection hm with hm
    subst hm
    split at h
    · exact absurd h (by simp)
    next analysis hex =>
      split at h
      · exact absurd h (by simp)
      next a1 hset1 =>
        split at h
        · exact absurd h (by simp)
        next a2 hset2 =>
          split at h
          · exact absurd h (by simp)
          next a3 hci =>
            injection h with h
            subst h
            -- the references write keeps both fields
            rw [objGet_jsonSet_ne _ _ _ _ (by decide), objGet_jsonSet_ne _ _ _ _ (by decide)]
            -- the optional scoreConfidence write keeps both fields
            have hstep : objGet a3 "videoTitle" = objGet a2 "videoTitle" ∧
                objGet a3 "creatorName" = objGet a2 "creatorName" := by
              unfold withConfidence at hci
              split at hci
              · split at hci
                · injection hci with hci
                  subst hci
                  exact ⟨objGet_jsonSet_ne _ _ _ _ (by decide),
                    objGet_jsonSet_ne _ _ _ _ (by decide)⟩
                · exact absurd hci (by simp)
              · injection hci with hci
                subst hci
                exact ⟨rfl, rfl⟩
            rw [hstep.1, hstep.2]
            -- the two overwrites themselves
            rcases analysis with _ | _ | _ | _ | _ | _ | _ | _ | fs <;> simp [setField] at hset1
            subst hset1
            simp only [setField] at hset2
            injection hset2 with hset2
            subst hset2
            constructor
            · simp only [objGet]
              rw [pyGet_pyInsert_ne _ _ _ _ (by decide)]
              exact pyGet_pyInsert_self _ _ _
            · simp only [objGet]
              exact pyGet_pyInsert_self _ _ _

def c3Url : String := "https://youtube.com/watch?v=abcdefghijk"

def c3Meta : Metadata := ⟨"Real Title", "Real Creator"⟩

def c3Resp : ModelResponse :=
  ⟨"\x7b\"videoTitle\": \"model invented\", \"truthScore\": 50\x7d",
   [⟨"s1", "u"⟩, ⟨"s2", "u"⟩]⟩

def c3Out : Json :=
  match analyze_video_truth c3Url (some c3Meta) c3Resp with
  | .ok out => out
  | .error _ => .null

theorem truth_overrides_metadata_witness :
    analyze_video_truth c3Url (some c3Meta) c3Resp = .ok c3Out ∧
    objGet c3Out "videoTitle" = some (.str "Real Title") ∧
    objGet c3Out "creatorName" = some (.str "Real Creator") :=
  ⟨rfl, truth_overrides_metadata c3Url c3Meta c3Resp c3Out rfl⟩

/- ===================== C4 ===================== -/

/-- C4: after a successful `analyze_channel` call, a second call with the
    same name in any letter case returns the identical stored report from
    the cache, leaving the state (in particular the model-invocation count)
    unchanged. -/
theorem analyze_channel_cached (o : Oracle) (name : String) (st : SysState)
    (r : Json) (st' : SysState) (h : analyze_channel o name st = (.ok r, st'))
    (name2 : String) (hcase : pyLower name2 = pyLower name) :
    analyze_channel o name2 st' = (.ok r, st') := by
  have hkey : ("channel:" ++ pyLower name2) = ("channel:" ++ pyLower name) := by rw [hcase]
  unfold analyze_channel at h ⊢
  rw [hkey]
  split at h
  next v hv =>
    have h2 : Except.ok v = Except.ok r := congrArg Prod.fst h
    have h3 : st = st' := congrArg Prod.snd h
    injection h2 with h2
    subst h2
    subst h3
    simp [hv]
  next hv =>
    split at h
    · exact absurd (congrArg Prod.fst h) (by simp)
    next cdRaw hex =>
      split at h
      · exact absurd (congrArg Prod.fst h) (by simp)
      next cd hval =>
        split at h
        · exact absurd (congrArg Prod.fst h) (by simp)
        next cd2 hset =>
          have h2 : Except.ok cd2 = Except.ok r := congrArg Prod.fst h
          have h3 : (⟨pyInsert st.cache ("channel:" ++ pyLower name) cd2, st.calls + 1⟩ : SysState)
              = st' := congrArg Prod.snd h
          injection h2 with h2
          subst h2
          rw [← h3]
          simp [pyGet_pyInsert_self]

def c4Oracle : Oracle := fun _ =>
  ⟨"\x7b\"channelName\": \"A\", \"stats\": \x7b\x7d, \"growthTimeline\": []\x7d", []⟩

def c4First : Except JErr Json × SysState := analyze_channel c4Oracle "Abc" ⟨[], 0⟩

def c4Rep : Json :=
  match c4First.1 with
  | .ok r => r
  | .error _ => .null

theorem analyze_channel_cached_witness :
    analyze_channel c4Oracle "Abc" ⟨[], 0⟩ = (.ok c4Rep, c4First.2) ∧
    pyLower "ABC" = pyLower "Abc" ∧
    analyze_channel c4Oracle "ABC" c4First.2 = (.ok c4Rep, c4First.2) :=
  ⟨rfl, rfl, analyze_channel_cached c4Oracle "Abc" ⟨[], 0⟩ c4Rep c4First.2 rfl "ABC" rfl⟩

/- ===================== C5 ===================== -/

def c5ChText : String :=
  "\x7b\"channelName\": \"Solo\", \"stats\": \x7b\x7d, \"growthTimeline\": []\x7d"

def c5SynText : String :=
  "\x7b\"scores\": [\x7b\"channelName\": \"Solo\", \"overall\": 80\x7d], \"verdict\": \x7b\"winner\": \"Solo\"\x7d\x7d"

def c5Oracle : Oracle := fun n =>
  if n = 0 then ⟨c5ChText, []⟩ else ⟨c5SynText, []⟩

/-- C5 counterexample: the service-level `run_battle` itself performs no
    length validation — on a single channel name it returns a result and
    makes two model calls (one channel analysis plus the synthesis call)
    instead of failing first. -/
theorem run_battle_no_size_check :
    (match run_battle c5Oracle ["solo"] ⟨[], 0⟩ with
     | (.ok _, st) => st.calls
     | (.error _, _) => 0) = 2 := rfl

/-- C5 (amended): the 2–5 validation lives in the HTTP layer — a battle
    request whose channels array has length 1 or 6 is rejected by
    `api_run_battle` with the 400 validation error, before `run_battle` or
    any model call, leaving the process state untouched. -/
theorem api_battle_size_validated (l : List Json) (o : Oracle) (st : SysState)
    (h : l.length = 1 ∨ l.length = 6) :
    api_run_battle (some (.arr l)) o st = (.err 400 "Please provide 2-5 channels", st) := by
  have hne : l.isEmpty = false := by
    cases l with
    | nil => simp at h
    | cons a rest => simp [List.isEmpty]
  have hrange : l.length < 2 ∨ l.length > 5 := by omega
  simp only [api_run_battle, hne, Bool.false_eq_true, if_false, if_pos hrange]

theorem api_battle_size_validated_witness :
    api_run_battle (some (.arr [.str "solo"])) c5Oracle ⟨[], 0⟩
      = (.err 400 "Please provide 2-5 channels", ⟨[], 0⟩) :=
  api_battle_size_validated [.str "solo"] c5Oracle ⟨[], 0⟩ (Or.inl rfl)

/- ===================== C6 ===================== -/

theorem analyzeAll_length (o : Oracle) : ∀ (names : List String) (st : SysState)
    (cs : List Json) (st' : SysState),
    analyzeAll o names st = (.ok cs, st') → cs.length = names.length := by
  intro names
  induction names with
  | nil =>
    intro st cs st' h
    simp only [analyzeAll] at h
    have h1 : Except.ok ([] : List Json) = Except.ok cs := congrArg Prod.fst h
    injection h1 with h1
    rw [← h1]
    rfl
  | cons n rest ih =>
    intro st cs st' h
    simp only [analyzeAll] at h
    split at h
    · exact absurd (congrArg Prod.fst h) (by simp)
    next c st1 _ =>
      split at h
      · exact absurd (congrArg Prod.fst h) (by simp)
      next cs' st2 hrec =>
        have h1 : Except.ok (c :: cs') = Except.ok cs := congrArg Prod.fst h
        injection h1 with h1
        rw [← h1]
        simp [ih st1 cs' st2 hrec]

/-- C6 (amended): whenever `run_battle` returns a `BattleResult`, the
    `channels` sequence has exactly one report per input name; the `scores`
    sequence, by contrast, is whatever the model's synthesis JSON contained
    and its length is never checked against the input count. -/
theorem battle_channels_count (o : Oracle) (names : List String) (st : SysState)
    (br : BattleResult) (st' : SysState)
    (h : run_battle o names st = (.ok br, st')) :
    br.channels.length = names.length := by
  unfold run_battle at h
  split at h
  · exact absurd (congrArg Prod.fst h) (by simp)
  next channels st1 hall =>
    split at h
    · exact absurd (congrArg Prod.fst h) (by simp)
    next _ _ =>
      split at h
      · exact absurd (congrArg Prod.fst h) (by simp)
      next synthesis _ =>
        split at h
        · exact absurd (congrArg Prod.fst h) (by simp)
        next scores _ =>
          split at h
          · exact absurd (congrArg Prod.fst h) (by simp)
          next stats _ =>
            split at h
            · exact absurd (congrArg Prod.fst h) (by simp)
            next verdict _ =>
              have h1 : Except.ok (⟨channels, scores, verdict, stats⟩ : BattleResult)
                  = Except.ok br := congrArg Prod.fst h
              injection h1 with h1
              rw [← h1]
              exact analyzeAll_length o names st channels st1 hall
        next _ _ =>
          exact absurd (congrArg Prod.fst h) (by simp)

def c6ChText : String :=
  "\x7b\"channelName\": \"A\", \"stats\": \x7b\x7d, \"growthTimeline\": []\x7d"

def c6SynText : String :=
  "\x7b\"scores\": [\x7b\"channelName\": \"a\", \"overall\": 80\x7d, \x7b\"channelName\": \"b\", \"overall\": 70\x7d, \x7b\"channelName\": \"c\", \"overall\": 60\x7d], \"verdict\": \x7b\"winner\": \"a\"\x7d\x7d"

def c6Oracle : Oracle := fun n =>
  if n < 2 then ⟨c6ChText, []⟩ else ⟨c6SynText, []⟩

/-- C6 counterexample: a `run_battle` call on two names that returns a
    result whose `scores` sequence has three entries — the model returned
    three scores and no check relates them to the input count. -/
theorem battle_scores_count_cex :
    (match run_battle c6Oracle ["a", "b"] ⟨[], 0⟩ with
     | (.ok br, _) => (br.channels.length, br.scores.length)
     | (.error _, _) => (0, 0)) = (2, 3) := rfl

def c6Res : Except JErr BattleResult × SysState := run_battle c6Oracle ["a", "b"] ⟨[], 0⟩

def c6Br : BattleResult :=
  match c6Res.1 with
  | .ok br => br
  | .error _ => ⟨[], [], .null, .insufficientData⟩

theorem battle_channels_count_witness :
    run_battle c6Oracle ["a", "b"] ⟨[], 0⟩ = (.ok c6Br, c6Res.2) ∧
    c6Br.channels.length = 2 :=
  ⟨rfl, battle_channels_count c6Oracle ["a", "b"] ⟨[], 0⟩ c6Br c6Res.2 rfl⟩

/- ===================== C10 ===================== -/

/-- The cleaned growth timeline of a channel object (the rows surviving
    coercion and `dropna`, sorted by year). -/
def cleanedTimeline (cd : Json) : List GrowthRow :=
  match cd with
  | .obj fs => create_growth_dataframe (timelineOf fs)
  | _ => []

theorem topicStep_preserves (j out : Json) (k : String)
    (h : topicStep j = .ok out) (hk : k ≠ "topicAnalysis") :
    objGet out k = objGet j k := by
  unfold topicStep at h
  split at h
  next ta hta =>
    split at h
    next topics htd =>
      cases hn : normalize_topic_distribution topics with
      | error e => rw [hn] at h; exact absurd h (by simp [Except.map])
      | ok recs =>
        rw [hn] at h
        simp only [Except.map] at h
        injection h with h
        subst h
        exact objGet_jsonSet_ne _ _ _ _ hk
    · exact absurd h (by simp)
    next htd =>
      injection h with h
      subst h
      rfl
  next hta =>
    injection h with h
    subst h
    rfl

/-- C10 (amended): `validate_channel_data` never *adds* a `trendPrediction`
    key when the cleaned timeline has fewer than 3 valid points — for every
    channel object without such a key that validates, the report has a
    `growthStatistics` field and still no `trendPrediction` field. -/
theorem validate_no_trend_key (cd out : Json)
    (hv : validate_channel_data cd = .ok out)
    (hno : objGet cd "trendPrediction" = none)
    (hfew : (cleanedTimeline cd).length < 3) :
    (objGet out "growthStatistics").isSome ∧ objGet out "trendPrediction" = none := by
  unfold validate_channel_data at hv
  split at hv
  next fs =>
    split at hv
    · exact absurd hv (by simp)
    split at hv
    · exact absurd hv (by simp)
    split at hv
    · exact absurd hv (by simp)
    -- the prediction is unavailable, so trendPart adds nothing
    have hfew2 : (create_growth_dataframe (timelineOf fs)).length < 3 := by
      simpa [cleanedTimeline] using hfew
    have htp : trendPart fs = growthPart fs := by
      unfold trendPart
      rw [calculate_trend_prediction, if_pos hfew2]
      simp [objGet, pyGet, jsonTruthy]
    rw [htp] at hv
    constructor
    · rw [topicStep_preserves _ _ _ hv (by decide)]
      unfold growthPart
      simp only [objGet]
      rw [pyGet_pyInsert_self]
      rfl
    · rw [topicStep_preserves _ _ _ hv (by decide)]
      unfold growthPart
      simp only [objGet]
      rw [pyGet_pyInsert_ne _ _ _ _ (by decide)]
      simpa [objGet] using hno
  next hne =>
    exact absurd hv (by simp)

def c10Cex : Json := .obj [("channelName", .str "A"), ("stats", .obj []),
  ("growthTimeline", .arr []), ("trendPrediction", .str "stale")]

/-- C10 counterexample: a channel object that already carries a
    `trendPrediction` key keeps it — `validate_channel_data` does not
    remove it even though the cleaned timeline is empty, so the report is
    not free of the key for every sub-3-point timeline. -/
theorem validate_trend_key_cex :
    (match validate_channel_data c10Cex with
     | .ok out => objGet out "trendPrediction"
     | .error _ => none) = some (.str "stale") ∧
    (cleanedTimeline c10Cex).length < 3 := ⟨rfl, by decide⟩

def c10W : Json := .obj [("channelName", .str "A"), ("stats", .obj []),
  ("growthTimeline", .arr [])]

def c10WOut : Json :=
  match validate_channel_data c10W with
  | .ok out => out
  | .error _ => .null

theorem validate_no_trend_key_witness :
    validate_channel_data c10W = .ok c10WOut ∧
    objGet c10W "trendPrediction" = none ∧
    (cleanedTimeline c10W).length < 3 ∧
    ((objGet c10WOut "growthStatistics").isSome ∧ objGet c10WOut "trendPrediction" = none) :=
  ⟨rfl, rfl, by decide, validate_no_trend_key c10W c10WOut rfl rfl (by decide)⟩

/- ===================== C2 ===================== -/

theorem lazyCap_split : ∀ (t acc cap : List Char), lazyCap t acc = some cap →
    ∃ b c, t = b ++ '}' :: c := by
  intro t
  induction t with
  | nil => intro acc cap h; simp [lazyCap] at h
  | cons x rest ih =>
    intro acc cap h
    unfold lazyCap at h
    split at h
    next hcond =>
      exact ⟨[], rest, by rw [hcond.1]; rfl⟩
    next hcond =>
      obtain ⟨b, c, hbc⟩ := ih _ _ h
      exact ⟨x :: b, c, by rw [hbc]; simp⟩

theorem tryFence_split (m l cap : List Char) (h : tryFence m l = some cap) :
    ∃ a b c, l = a ++ '{' :: b ++ '}' :: c := by
  unfold tryFence at h
  split at h
  next hpre =>
    split at h
    next t hdw =>
      obtain ⟨r, hr⟩ := (List.isPrefixOf_iff_prefix.mp hpre)
      obtain ⟨b, c, hbc⟩ := lazyCap_split _ _ _ h
      refine ⟨m ++ r.takeWhile isSpc, b, c, ?_⟩
      have hdrop : l.drop m.length = r := by rw [← hr, List.drop_left]
      rw [hdrop] at hdw
      have hsplit : r.takeWhile isSpc ++ r.dropWhile isSpc = r :=
        List.takeWhile_append_dropWhile isSpc r
      calc l = m ++ r := hr.symm
        _ = m ++ (r.takeWhile isSpc ++ r.dropWhile isSpc) := by rw [hsplit]
        _ = m ++ r.takeWhile isSpc ++ ('{' :: t) := by rw [hdw]; simp
        _ = (m ++ r.takeWhile isSpc) ++ '{' :: b ++ '}' :: c := by rw [hbc]; simp
    · exact absurd h (by simp)
  · exact absurd h (by simp)

theorem fenceSearch_split : ∀ (l : List Char) (m cap : List Char),
    fenceSearch m l = some cap → ∃ a b c, l = a ++ '{' :: b ++ '}' :: c := by
  intro l
  induction l with
  | nil => intro m cap h; simp [fenceSearch] at h
  | cons x rest ih =>
    intro m cap h
    unfold fenceSearch at h
    split at h
    next cap2 htf =>
      exact tryFence_split m _ _ htf
    next htf =>
      obtain ⟨a, b, c, habc⟩ := ih m cap h
      exact ⟨x :: a, b, c, by rw [habc]; simp⟩

theorem dropWhile_eq_cons (p : Char → Bool) : ∀ (l : List Char) (c : Char) (t : List Char),
    l.dropWhile p = c :: t → p c = false ∧ ∃ a, l = a ++ c :: t ∧ ∀ x ∈ a, p x = true := by
  intro l
  induction l with
  | nil => intro c t h; simp [List.dropWhile] at h
  | cons x rest ih =>
    intro c t h
    by_cases hx : p x
    · rw [List.dropWhile_cons_of_pos hx] at h
      obtain ⟨hc, a, ha, hall⟩ := ih c t h
      exact ⟨hc, x :: a, by rw [ha]; simp, by
        intro y hy
        rcases List.mem_cons.mp hy with hy | hy
        · rw [hy]; exact hx
        · exact hall y hy⟩
    · rw [List.dropWhile_cons_of_neg hx] at h
      injection h with h1 h2
      subst h1; subst h2
      exact ⟨Bool.of_not_eq_true hx, [], rfl, by simp⟩

theorem extractStage3_no_span (clean : List Char)
    (hspan : ¬ ∃ a b c, clean = a ++ '{' :: b ++ '}' :: c) :
    extractStage3 clean = .error .parseFailure := by
  unfold extractStage3
  cases ht : clean.dropWhile (fun c => c ≠ '{') with
  | nil => simp
  | cons c0 t' =>
    obtain ⟨hc0, a, ha, _⟩ := dropWhile_eq_cons _ _ _ _ ht
    have hc0' : c0 = '{' := by simpa using hc0
    subst hc0'
    simp only [List.isEmpty_cons, Bool.false_eq_true, if_false]
    -- the suffix after the first brace contains no closing brace
    have hnob : ∀ x ∈ t', x ≠ '}' := by
      intro x hx hxe
      subst hxe
      obtain ⟨s, t, hst⟩ := List.append_of_mem hx
      exact hspan ⟨a, s, t, by rw [ha, hst]; simp⟩
    have hall : ∀ x ∈ ('{' :: t').reverse, decide (x ≠ '}') = true := by
      intro x hx
      rcases List.mem_cons.mp (List.mem_reverse.mp hx) with hx | hx
      · subst hx; simp
      · simpa using hnob x hx
    have hdw : (('{' :: t').reverse).dropWhile (fun c => c ≠ '}') = [] :=
      List.dropWhile_eq_nil_iff.mpr hall
    rw [hdw]
    simp

/-- C2 (amended): on input that is not itself valid JSON and contains no
    substring starting at `{` and ending at a later `}`, `extract_json`
    raises: the distinct empty-response error for the empty input, the
    ParseError otherwise.  (A *valid-JSON* spanless input such as `"5"` is
    returned by the direct-parse strategy; see the counterexample.) -/
theorem extract_json_no_span (text : List Char)
    (hdirect : jsonLoads (pyStrip text) = none)
    (hspan : ¬ ∃ a b c, pyStrip text = a ++ '{' :: b ++ '}' :: c) :
    extract_json text = .error (if text = [] then JErr.emptyResponse else JErr.parseFailure) := by
  by_cases he : text = []
  · simp [extract_json, he]
  · have h1 : fenceSearch markerJson (pyStrip text) = none := by
      cases hf : fenceSearch markerJson (pyStrip text) with
      | none => rfl
      | some cap => exact absurd (fenceSearch_split _ _ _ hf) hspan
    have h2 : fenceSearch backticks (pyStrip text) = none := by
      cases hf : fenceSearch backticks (pyStrip text) with
      | none => rfl
      | some cap => exact absurd (fenceSearch_split _ _ _ hf) hspan
    have h3 := extractStage3_no_span (pyStrip text) hspan
    rw [if_neg he]
    unfold extract_json
    rw [if_neg he]
    change (match jsonLoads (pyStrip text) with
      | some v => Except.ok v
      | none => extractStage1 (pyStrip text)) = Except.error JErr.parseFailure
    rw [hdirect]
    unfold extractStage1
    rw [h1]
    unfold extractStage2
    rw [h2, h3]

/-- Decidable form of "the text has a `{`...`}` span". -/
def hasSpanB (l : List Char) : Bool :=
  match l.dropWhile (fun c => c ≠ '{') with
  | [] => false
  | _ :: rest => rest.any (fun c => c = '}')

theorem hasSpanB_of_span : ∀ (a : List Char) (b c : List Char),
    hasSpanB (a ++ '{' :: b ++ '}' :: c) = true := by
  intro a
  induction a with
  | nil =>
    intro b c
    have hd : List.dropWhile (fun ch => decide (ch ≠ '{')) ('{' :: (b ++ '}' :: c))
        = '{' :: (b ++ '}' :: c) := by simp [List.dropWhile]
    simp only [List.nil_append, List.cons_append, hasSpanB, hd]
    rw [List.any_eq_true]
    exact ⟨'}', by simp, by simp⟩
  | cons x a' ih =>
    intro b c
    by_cases hx : x = '{'
    · subst hx
      have hd : List.dropWhile (fun ch => decide (ch ≠ '{')) ('{' :: (a' ++ '{' :: b ++ '}' :: c))
          = '{' :: (a' ++ '{' :: b ++ '}' :: c) := by simp [List.dropWhile]
      simp only [List.cons_append, hasSpanB, hd]
      rw [List.any_eq_true]
      exact ⟨'}', by simp, by simp⟩
    · have hd : List.dropWhile (fun ch => decide (ch ≠ '{')) (x :: (a' ++ '{' :: b ++ '}' :: c))
          = List.dropWhile (fun ch => decide (ch ≠ '{')) (a' ++ '{' :: b ++ '}' :: c) := by
        simp [List.dropWhile, hx]
      have hgoal := ih b c
      simp only [hasSpanB] at hgoal ⊢
      simp only [List.cons_append, hd]
      exact hgoal

/-- C2 counterexample: the input `"5"` contains no `{`...`}` span, yet
    `extract_json` succeeds — the direct-parse strategy returns any valid
    JSON value, object or not, so the claimed failure does not happen. -/
theorem extract_json_five_cex :
    extract_json "5".toList = .ok (.intVal 5) ∧ hasSpanB "5".toList = false := ⟨rfl, rfl⟩

theorem extract_json_no_span_witness :
    extract_json "hello ]".toList = .error .parseFailure := by
  have h := extract_json_no_span "hello ]".toList rfl
    (fun hsp => by
      obtain ⟨a, b, c, habc⟩ := hsp
      have : hasSpanB (pyStrip "hello ]".toList) = true := habc ▸ hasSpanB_of_span a b c
      revert this
      decide)
  rw [if_neg (by decide)] at h
  exact h

/- ===================== C9 ===================== -/

theorem QF.ble_total (a b : QF) : a.ble b = true ∨ b.ble a = true := by
  simp only [QF.ble, decide_eq_true_eq]
  rcases Int.le_total (a.num * b.den) (b.num * a.den) with h | h
  · exact Or.inl h
  · exact Or.inr h

theorem QF.ble_trans {a b c : QF} (ha : 0 < a.den) (hb : 0 < b.den) (hc : 0 < c.den)
    (h1 : a.ble b = true) (h2 : b.ble c = true) : a.ble c = true := by
  simp only [QF.ble, decide_eq_true_eq] at h1 h2 ⊢
  have h3 : b.den * (a.num * c.den) ≤ b.den * (c.num * a.den) := by nlinarith
  exact le_of_mul_le_mul_left h3 hb

theorem QF.ble_antisymm {a b : QF} (h1 : a.ble b = true) (h2 : b.ble a = true) :
    a.beqv b = true := by
  simp only [QF.ble, decide_eq_true_eq] at h1 h2
  simp only [QF.beqv, decide_eq_true_eq]
  omega

theorem QF.beqv_symm_false {a b : QF} (h : a.beqv b = false) : b.beqv a = false := by
  simp only [QF.beqv, decide_eq_false_iff_not] at h ⊢
  omega

theorem rowle_total (a b : GrowthRow) : rowle a b ∨ rowle b a := QF.ble_total _ _

theorem rowle_trans {a b c : GrowthRow} (ha : 0 < a.year.den) (hb : 0 < b.year.den)
    (hc : 0 < c.year.den) (h1 : rowle a b) (h2 : rowle b c) : rowle a c :=
  QF.ble_trans ha hb hc h1 h2

theorem toRow_posDen (e : Json) (r : GrowthRow) (h : toRow e = some r) :
    0 < r.year.den := by
  unfold toRow at h
  split at h
  · split at h
    next hpos =>
      injection h with h
      subst h
      exact hpos.1
    · exact absurd h (by simp)
  · exact absurd h (by simp)

theorem pairwise_orderedInsert (a : GrowthRow) (l : List GrowthRow)
    (hposa : 0 < a.year.den) (hpos : ∀ r ∈ l, 0 < r.year.den)
    (hp : List.Pairwise rowle l) : List.Pairwise rowle (List.orderedInsert rowle a l) := by
  induction l with
  | nil => simp [List.orderedInsert]
  | cons b t ih =>
    obtain ⟨hbt, hpt⟩ := List.pairwise_cons.mp hp
    by_cases hab : rowle a b
    · simp only [List.orderedInsert, if_pos hab]
      refine List.pairwise_cons.mpr ⟨?_, hp⟩
      intro x hx
      rcases List.mem_cons.mp hx with hx | hx
      · subst hx; exact hab
      · exact rowle_trans hposa (hpos b (by simp)) (hpos x (List.mem_cons_of_mem _ hx))
          hab (hbt x hx)
    · simp only [List.orderedInsert, if_neg hab]
      refine List.pairwise_cons.mpr ⟨?_, ih (fun r hr => hpos r (List.mem_cons_of_mem _ hr)) hpt⟩
      intro x hx
      rcases (List.mem_orderedInsert rowle).mp hx with hx | hx
      · rw [hx]
        rcases rowle_total a b with h | h
        · exact absurd h hab
        · exact h
      · exact hbt x hx

theorem pairwise_insertionSort (l : List GrowthRow) (hpos : ∀ r ∈ l, 0 < r.year.den) :
    List.Pairwise rowle (List.insertionSort rowle l) := by
  induction l with
  | nil => simp [List.insertionSort]
  | cons a t ih =>
    simp only [List.insertionSort]
    exact pairwise_orderedInsert a _ (hpos a (by simp))
      (fun r hr => hpos r (List.mem_cons_of_mem _ ((List.perm_insertionSort rowle t).subset hr)))
      (ih (fun r hr => hpos r (List.mem_cons_of_mem _ hr)))

/-- The distinct-years hypothesis of the amended C9: the valid timeline
    rows have pairwise value-distinct years. -/
def yearsDistinct (l : List GrowthRow) : Prop :=
  List.Pairwise (fun a b : GrowthRow => a.year.beqv b.year = false) l

theorem create_growth_dataframe_perm (tl1 tl2 : List Json) (hp : tl1.Perm tl2)
    (hd : yearsDistinct (tl1.filterMap toRow)) :
    create_growth_dataframe tl1 = create_growth_dataframe tl2 := by
  have hpFM : (tl1.filterMap toRow).Perm (tl2.filterMap toRow) := hp.filterMap toRow
  have hpos1 : ∀ r ∈ tl1.filterMap toRow, 0 < r.year.den := by
    intro r hr
    obtain ⟨e, _, he⟩ := List.mem_filterMap.mp hr
    exact toRow_posDen e r he
  have hpos2 : ∀ r ∈ tl2.filterMap toRow, 0 < r.year.den := by
    intro r hr
    obtain ⟨e, _, he⟩ := List.mem_filterMap.mp hr
    exact toRow_posDen e r he
  unfold create_growth_dataframe
  by_cases h1 : tl1.isEmpty
  · have h0 : tl1 = [] := List.isEmpty_iff.mp h1
    subst h0
    have h2 : tl2 = [] := hp.symm.eq_nil
    subst h2
    rfl
  · have h2 : tl2.isEmpty = false := by
      rcases he : tl2 with _ | ⟨x, t⟩
      · subst he
        exact absurd (hp.eq_nil) (by simpa [List.isEmpty_iff] using h1)
      · rfl
    rw [Bool.not_eq_true] at h1
    rw [h1, h2]
    simp only [Bool.false_eq_true, if_false]
    apply @List.Perm.eq_of_sorted GrowthRow rowle
    · intro a b ha hb hab hba
      have ha1 : a ∈ tl1.filterMap toRow := (List.perm_insertionSort rowle _).subset ha
      have hb1 : b ∈ tl1.filterMap toRow :=
        hpFM.symm.subset ((List.perm_insertionSort rowle _).subset hb)
      by_contra hne
      have hf : a.year.beqv b.year = false := by
        have hsym : Symmetric (fun a b : GrowthRow => a.year.beqv b.year = false) :=
          fun x y hxy => QF.beqv_symm_false hxy
      -- pairwise distinctness applies to the two members
        exact (List.Pairwise.forall hsym hd) ha1 hb1 hne
      have ht : a.year.beqv b.year = true := QF.ble_antisymm hab hba
      rw [ht] at hf
      exact absurd hf (by simp)
    · exact pairwise_insertionSort _ hpos1
    · exact pairwise_insertionSort _ hpos2
    · exact (List.perm_insertionSort rowle _).trans
        (hpFM.trans (List.perm_insertionSort rowle _).symm)

theorem validate_ok_topicStep (fs : List (String × Json)) (out : Json)
    (hv : validate_channel_data (.obj fs) = .ok out) :
    topicStep (trendPart fs) = .ok out := by
  simp only [validate_channel_data] at hv
  split at hv
  · exact absurd hv (by simp)
  split at hv
  · exact absurd hv (by simp)
  split at hv
  · exact absurd hv (by simp)
  exact hv

theorem trendPart_gs (fs : List (String × Json)) :
    objGet (trendPart fs) "growthStatistics"
      = some (calculate_growth_rate (create_growth_dataframe (timelineOf fs))) := by
  unfold trendPart
  split
  · rw [objGet_jsonSet_ne _ _ _ _ (by decide)]
    unfold growthPart
    simp only [objGet]
    exact pyGet_pyInsert_self _ _ _
  · unfold growthPart
    simp only [objGet]
    exact pyGet_pyInsert_self _ _ _

theorem trendPart_tp (fs : List (String × Json)) :
    objGet (trendPart fs) "trendPrediction"
      = (if jsonTruthy ((objGet (calculate_trend_prediction
            (create_growth_dataframe (timelineOf fs)) 1) "prediction_available").getD .null)
         then some (calculate_trend_prediction (create_growth_dataframe (timelineOf fs)) 1)
         else pyGet fs "trendPrediction") := by
  unfold trendPart
  split
  next hcond =>
    unfold growthPart
    exact objGet_jsonSet_self _ _ _
  next hcond =>
    unfold growthPart
    simp only [objGet]
    exact pyGet_pyInsert_ne _ _ _ _ (by decide)

/-- C9 (amended): permuting the growth timeline leaves the attached
    growth statistics and trend prediction unchanged *provided the valid
    timeline entries have pairwise-distinct years* — the dataframe builder
    sorts by year, which only canonicalizes the order when years do not
    repeat. -/
theorem validate_perm_stats (cd cd2 out1 out2 : Json) (tl1 tl2 : List Json)
    (h1 : objGet cd "growthTimeline" = some (.arr tl1))
    (hset : setField cd "growthTimeline" (.arr tl2) = some cd2)
    (hp : tl1.Perm tl2)
    (hd : yearsDistinct (tl1.filterMap toRow))
    (hv1 : validate_channel_data cd = .ok out1)
    (hv2 : validate_channel_data cd2 = .ok out2) :
    objGet out1 "growthStatistics" = objGet out2 "growthStatistics" ∧
    objGet out1 "trendPrediction" = objGet out2 "trendPrediction" := by
  rcases cd with _ | _ | _ | _ | _ | _ | _ | _ | fs
  all_goals simp [setField] at hset
  subst hset
  simp only [objGet] at h1
  have ht1 : timelineOf fs = tl1 := by
    unfold timelineOf
    rw [h1]
  have ht2 : timelineOf (pyInsert fs "growthTimeline" (.arr tl2)) = tl2 := by
    unfold timelineOf
    rw [pyGet_pyInsert_self]
  have hdf : create_growth_dataframe (timelineOf fs)
      = create_growth_dataframe (timelineOf (pyInsert fs "growthTimeline" (.arr tl2))) := by
    rw [ht1, ht2]
    exact create_growth_dataframe_perm tl1 tl2 hp hd
  have hs1 := validate_ok_topicStep fs out1 hv1
  have hs2 := validate_ok_topicStep (pyInsert fs "growthTimeline" (.arr tl2)) out2 hv2
  have e1g := topicStep_preserves _ _ "growthStatistics" hs1 (by decide)
  have e2g := topicStep_preserves _ _ "growthStatistics" hs2 (by decide)
  have e1t := topicStep_preserves _ _ "trendPrediction" hs1 (by decide)
  have e2t := topicStep_preserves _ _ "trendPrediction" hs2 (by decide)
  constructor
  · rw [e1g, e2g, trendPart_gs, trendPart_gs, hdf]
  · rw [e1t, e2t, trendPart_tp, trendPart_tp, hdf,
      pyGet_pyInsert_ne _ _ _ _ (by decide)]

def c9E1 : Json := .obj [("year", .intVal 2020), ("subscribers", .intVal 1000), ("videos", .intVal 10)]

def c9E2 : Json := .obj [("year", .intVal 2020), ("subscribers", .intVal 2000), ("videos", .intVal 20)]

def c9Cd1 : Json := .obj [("channelName", .str "A"), ("stats", .obj []),
  ("growthTimeline", .arr [c9E1, c9E2])]

def c9Cd2 : Json := .obj [("channelName", .str "A"), ("stats", .obj []),
  ("growthTimeline", .arr [c9E2, c9E1])]

/-- C9 counterexample: two permutations of the same timeline whose entries
    share the year 2020 validate to different growth statistics — one order
    reports `rapid_growth`, the other `declining` — because sorting by year
    cannot canonicalize the order of equal years. -/
theorem validate_perm_cex :
    (match validate_channel_data c9Cd1 with
     | .ok o => (objGet o "growthStatistics").bind (fun s => objGet s "growth_trend")
     | .error _ => none) = some (.str "rapid_growth") ∧
    (match validate_channel_data c9Cd2 with
     | .ok o => (objGet o "growthStatistics").bind (fun s => objGet s "growth_trend")
     | .error _ => none) = some (.str "declining") ∧
    [c9E1, c9E2].Perm [c9E2, c9E1] :=
  ⟨rfl, rfl, List.Perm.swap c9E2 c9E1 []⟩

def c9W1 : Json := .obj [("year", .intVal 2020), ("subscribers", .intVal 1000), ("videos", .intVal 10)]

def c9W2 : Json := .obj [("year", .intVal 2021), ("subscribers", .intVal 1100), ("videos", .intVal 12)]

def c9WCd1 : Json := .obj [("channelName", .str "A"), ("stats", .obj []),
  ("growthTimeline", .arr [c9W1, c9W2])]

def c9WCd2 : Json :=
  match setField c9WCd1 "growthTimeline" (.arr [c9W2, c9W1]) with
  | some j => j
  | none => .null

def c9WOut1 : Json :=
  match validate_channel_data c9WCd1 with
  | .ok o => o
  | .error _ => .null

def c9WOut2 : Json :=
  match validate_channel_data c9WCd2 with
  | .ok o => o
  | .error _ => .null

theorem validate_perm_stats_witness :
    validate_channel_data c9WCd1 = .ok c9WOut1 ∧
    validate_channel_data c9WCd2 = .ok c9WOut2 ∧
    (objGet c9WOut1 "growthStatistics" = objGet c9WOut2 "growthStatistics" ∧
     objGet c9WOut1 "trendPrediction" = objGet c9WOut2 "trendPrediction") :=
  ⟨rfl, rfl,
    validate_perm_stats c9WCd1 c9WCd2 c9WOut1 c9WOut2 [c9W1, c9W2] [c9W2, c9W1]
      rfl rfl (List.Perm.swap c9W2 c9W1 []) (by unfold yearsDistinct; decide) rfl rfl⟩

/- ===================== C8 ===================== -/

theorem QF.neg_toRat (a : QF) : a.neg.toRat = -a.toRat := by
  simp [QF.neg, QF.toRat, neg_div]

theorem QF.add_toRat (a b : QF) (ha : a.den ≠ 0) (hb : b.den ≠ 0) :
    (a.add b).toRat = a.toRat + b.toRat := by
  have ha' : (a.den : ℚ) ≠ 0 := Int.cast_ne_zero.mpr ha
  have hb' : (b.den : ℚ) ≠ 0 := Int.cast_ne_zero.mpr hb
  simp only [QF.add, QF.toRat]
  push_cast
  field_simp

theorem QF.sub_toRat (a b : QF) (ha : a.den ≠ 0) (hb : b.den ≠ 0) :
    (a.sub b).toRat = a.toRat - b.toRat := by
  have : b.neg.den = b.den := rfl
  rw [QF.sub, QF.add_toRat a b.neg ha (this ▸ hb), QF.neg_toRat]
  ring

theorem QF.mul_toRat (a b : QF) : (a.mul b).toRat = a.toRat * b.toRat := by
  simp only [QF.mul, QF.toRat]
  push_cast
  rw [div_mul_div_comm]

theorem QF.inv_toRat (a : QF) : a.inv.toRat = a.toRat⁻¹ := by
  by_cases h0 : a.num = 0
  · simp [QF.inv, h0, QF.toRat]
  · by_cases hpos : 0 < a.num
    · simp only [QF.inv, h0, if_false, hpos, if_true, QF.toRat]
      rw [inv_div]
    · simp only [QF.inv, h0, if_false, hpos, if_true, QF.toRat]
      push_cast
      rw [inv_div, neg_div_neg_eq]

theorem QF.div_toRat (a b : QF) : (a.div b).toRat = a.toRat / b.toRat := by
  rw [QF.div, QF.mul_toRat, QF.inv_toRat, div_eq_mul_inv]

theorem QF.add_denPos {a b : QF} (ha : 0 < a.den) (hb : 0 < b.den) : 0 < (a.add b).den :=
  mul_pos ha hb

theorem QF.neg_denPos {a : QF} (ha : 0 < a.den) : 0 < a.neg.den := ha

theorem QF.sub_denPos {a b : QF} (ha : 0 < a.den) (hb : 0 < b.den) : 0 < (a.sub b).den :=
  mul_pos ha hb

theorem QF.mul_denPos {a b : QF} (ha : 0 < a.den) (hb : 0 < b.den) : 0 < (a.mul b).den :=
  mul_pos ha hb

theorem sumQ_denPos : ∀ (l : List QF), (∀ q ∈ l, 0 < q.den) → 0 < (sumQ l).den := by
  intro l
  induction l with
  | nil => intro _; simp [sumQ]
  | cons x rest ih =>
    intro h
    exact QF.mul_denPos (h x (by simp)) (ih (fun q hq => h q (List.mem_cons_of_mem _ hq)))

theorem sumQ_toRat : ∀ (l : List QF), (∀ q ∈ l, 0 < q.den) →
    (sumQ l).toRat = (l.map QF.toRat).sum := by
  intro l
  induction l with
  | nil => intro _; simp [sumQ, QF.toRat]
  | cons x rest ih =>
    intro h
    have hrest : ∀ q ∈ rest, 0 < q.den := fun q hq => h q (List.mem_cons_of_mem _ hq)
    rw [show sumQ (x :: rest) = x.add (sumQ rest) from rfl,
      QF.add_toRat x (sumQ rest) (ne_of_gt (h x (by simp))) (ne_of_gt (sumQ_denPos rest hrest)),
      ih hrest]
    simp

/-- The closed-form fit minimizes the quadratic error functional (pure
    rational algebra; `YY` cancels from both sides so it does not appear). -/
theorem ols_key_ineq (n X Q P Y a b : ℚ) (hn : 0 < n) (hD : 0 < n * Q - X * X) :
    -2 * ((n * P - X * Y) / (n * Q - X * X)) * P
      - 2 * ((Y - ((n * P - X * Y) / (n * Q - X * X)) * X) / n) * Y
      + ((n * P - X * Y) / (n * Q - X * X)) ^ 2 * Q
      + 2 * ((n * P - X * Y) / (n * Q - X * X))
          * ((Y - ((n * P - X * Y) / (n * Q - X * X)) * X) / n) * X
      + ((Y - ((n * P - X * Y) / (n * Q - X * X)) * X) / n) ^ 2 * n
    ≤ -2 * a * P - 2 * b * Y + a ^ 2 * Q + 2 * a * b * X + b ^ 2 * n := by
  have hD' : n * Q - X * X ≠ 0 := ne_of_gt hD
  have hn' : n ≠ 0 := ne_of_gt hn
  set s := (n * P - X * Y) / (n * Q - X * X) with hs_def
  set t := (Y - s * X) / n with ht_def
  have hs : s * (n * Q - X * X) = n * P - X * Y := div_mul_cancel₀ _ hD'
  have ht : t * n = Y - s * X := div_mul_cancel₀ _ hn'
  clear_value s t
  have h3 : n * (s * Q + t * X) = n * P := by linear_combination hs + X * ht
  have ne1 : s * Q + t * X = P := by
    have := mul_left_cancel₀ hn' h3
    linarith [this]
  have ne2 : s * X + t * n = Y := by linear_combination ht
  have hEq : (-2 * a * P - 2 * b * Y + a ^ 2 * Q + 2 * a * b * X + b ^ 2 * n)
      - (-2 * s * P - 2 * t * Y + s ^ 2 * Q + 2 * s * t * X + t ^ 2 * n)
      = (a - s) ^ 2 * Q + 2 * (a - s) * (b - t) * X + (b - t) ^ 2 * n := by
    linear_combination (2 * a - 2 * s) * ne1 + (2 * b - 2 * t) * ne2
  have hC : 0 ≤ (a - s) ^ 2 * Q + 2 * (a - s) * (b - t) * X + (b - t) ^ 2 * n := by
    nlinarith [sq_nonneg ((a - s) * X + (b - t) * n), sq_nonneg (a - s), hD, hn]
  linarith [hC, hEq]

/-- Expansion of the sum of squared residuals of the line `y = α·x + β`
    over the rational values of the data points. -/
theorem sse_expand (α β : ℚ) : ∀ (L : List (QF × QF)),
    (L.map fun p => (p.2.toRat - (α * p.1.toRat + β)) ^ 2).sum
      = (L.map fun p => p.2.toRat ^ 2).sum
        - 2 * α * (L.map fun p => p.1.toRat * p.2.toRat).sum
        - 2 * β * (L.map fun p => p.2.toRat).sum
        + α ^ 2 * (L.map fun p => p.1.toRat ^ 2).sum
        + 2 * α * β * (L.map fun p => p.1.toRat).sum
        + β ^ 2 * L.length := by
  intro L
  induction L with
  | nil => simp
  | cons p L ih =>
    simp only [List.map_cons, List.sum_cons, List.length_cons, ih]
    push_cast
    ring

theorem range_sum_cast : ∀ n : Nat, ((List.range n).map (fun i => ((i : Nat) : ℚ))).sum
    = n * (n - 1) / 2 := by
  intro n
  induction n with
  | zero => simp
  | succ n ih =>
    rw [List.range_succ, List.map_append, List.sum_append, ih]
    simp only [List.map_cons, List.map_nil, List.sum_cons, List.sum_nil, add_zero]
    push_cast
    ring

theorem range_sum_sq_cast : ∀ n : Nat, ((List.range n).map (fun i => (((i : Nat) : ℚ)) ^ 2)).sum
    = n * (n - 1) * (2 * n - 1) / 6 := by
  intro n
  induction n with
  | zero => simp
  | succ n ih =>
    rw [List.range_succ, List.map_append, List.sum_append, ih]
    simp only [List.map_cons, List.map_nil, List.sum_cons, List.sum_nil, add_zero]
    push_cast
    ring


theorem QF.toRat_natCast (k : Nat) : (⟨(k : Int), 1⟩ : QF).toRat = (k : ℚ) := by
  simp [QF.toRat]

theorem QF.inv_denPos (a : QF) : 0 < a.inv.den := by
  unfold QF.inv
  split
  · exact Int.one_pos
  · split
    · rename_i hpos
      exact hpos
    · rename_i h0 hpos
      show 0 < -a.num
      omega

theorem QF.div_denPos {a b : QF} (ha : 0 < a.den) : 0 < (a.div b).den :=
  QF.mul_denPos ha (QF.inv_denPos b)

theorem sumFst_denPos {L : List (QF × QF)} (hL : ∀ p ∈ L, 0 < p.1.den ∧ 0 < p.2.den) :
    0 < (sumFst L).den := by
  unfold sumFst
  apply sumQ_denPos
  intro q hq
  obtain ⟨p, hp, rfl⟩ := List.mem_map.mp hq
  exact (hL p hp).1

theorem sumSnd_denPos {L : List (QF × QF)} (hL : ∀ p ∈ L, 0 < p.1.den ∧ 0 < p.2.den) :
    0 < (sumSnd L).den := by
  unfold sumSnd
  apply sumQ_denPos
  intro q hq
  obtain ⟨p, hp, rfl⟩ := List.mem_map.mp hq
  exact (hL p hp).2

theorem sumFstSq_denPos {L : List (QF × QF)} (hL : ∀ p ∈ L, 0 < p.1.den ∧ 0 < p.2.den) :
    0 < (sumFstSq L).den := by
  unfold sumFstSq
  apply sumQ_denPos
  intro q hq
  obtain ⟨p, hp, rfl⟩ := List.mem_map.mp hq
  exact QF.mul_denPos (hL p hp).1 (hL p hp).1

theorem sumProd_denPos {L : List (QF × QF)} (hL : ∀ p ∈ L, 0 < p.1.den ∧ 0 < p.2.den) :
    0 < (sumProd L).den := by
  unfold sumProd
  apply sumQ_denPos
  intro q hq
  obtain ⟨p, hp, rfl⟩ := List.mem_map.mp hq
  exact QF.mul_denPos (hL p hp).1 (hL p hp).2

theorem olsSlope_denPos {L : List (QF × QF)} (hL : ∀ p ∈ L, 0 < p.1.den ∧ 0 < p.2.den) :
    0 < (olsSlope L).den :=
  QF.div_denPos (QF.sub_denPos
    (@QF.mul_denPos ⟨(L.length : Int), 1⟩ (sumProd L) Int.one_pos (sumProd_denPos hL))
    (QF.mul_denPos (sumFst_denPos hL) (sumSnd_denPos hL)))

theorem olsIntercept_denPos {L : List (QF × QF)} (hL : ∀ p ∈ L, 0 < p.1.den ∧ 0 < p.2.den) :
    0 < (olsIntercept L).den :=
  QF.div_denPos (QF.sub_denPos (sumSnd_denPos hL)
    (QF.mul_denPos (olsSlope_denPos hL) (sumFst_denPos hL)))

theorem olsData_len (df : List GrowthRow) : (olsData df).length = df.length := by
  unfold olsData
  rw [List.length_zip]
  simp

theorem olsData_fst (df : List GrowthRow) :
    (olsData df).map (fun p => p.1)
      = (List.range df.length).map (fun i : Nat => (⟨(i : Int), 1⟩ : QF)) :=
  List.map_fst_zip _ _ (by simp)

theorem olsData_snd (df : List GrowthRow) :
    (olsData df).map (fun p => p.2) = df.map (fun r => r.subscribers) :=
  List.map_snd_zip _ _ (by simp)

theorem olsData_memDen {df : List GrowthRow} (hsub : ∀ r ∈ df, 0 < r.subscribers.den) :
    ∀ p ∈ olsData df, 0 < p.1.den ∧ 0 < p.2.den := by
  intro p hp
  obtain ⟨x, y⟩ := p
  unfold olsData at hp
  obtain ⟨hx, hy⟩ := List.of_mem_zip hp
  constructor
  · obtain ⟨i, _, rfl⟩ := List.mem_map.mp hx
    exact Int.one_pos
  · obtain ⟨r, hr, rfl⟩ := List.mem_map.mp hy
    exact hsub r hr

theorem sumFst_toRat {L : List (QF × QF)} (hL : ∀ p ∈ L, 0 < p.1.den ∧ 0 < p.2.den) :
    (sumFst L).toRat = (L.map fun p => p.1.toRat).sum := by
  unfold sumFst
  rw [sumQ_toRat (L.map fun p => p.1) (fun q hq => by
      obtain ⟨p, hp, rfl⟩ := List.mem_map.mp hq
      exact (hL p hp).1), List.map_map]
  rfl

theorem sumSnd_toRat {L : List (QF × QF)} (hL : ∀ p ∈ L, 0 < p.1.den ∧ 0 < p.2.den) :
    (sumSnd L).toRat = (L.map fun p => p.2.toRat).sum := by
  unfold sumSnd
  rw [sumQ_toRat (L.map fun p => p.2) (fun q hq => by
      obtain ⟨p, hp, rfl⟩ := List.mem_map.mp hq
      exact (hL p hp).2), List.map_map]
  rfl

theorem sumProd_toRat {L : List (QF × QF)} (hL : ∀ p ∈ L, 0 < p.1.den ∧ 0 < p.2.den) :
    (sumProd L).toRat = (L.map fun p => p.1.toRat * p.2.toRat).sum := by
  unfold sumProd
  rw [sumQ_toRat (L.map fun p => p.1.mul p.2) (fun q hq => by
      obtain ⟨p, hp, rfl⟩ := List.mem_map.mp hq
      exact QF.mul_denPos (hL p hp).1 (hL p hp).2), List.map_map]
  apply congrArg List.sum
  apply List.map_congr_left
  intro p hp
  exact QF.mul_toRat p.1 p.2

theorem sumFstSq_toRat {L : List (QF × QF)} (hL : ∀ p ∈ L, 0 < p.1.den ∧ 0 < p.2.den) :
    (sumFstSq L).toRat = (L.map fun p => p.1.toRat ^ 2).sum := by
  unfold sumFstSq
  rw [sumQ_toRat (L.map fun p => p.1.mul p.1) (fun q hq => by
      obtain ⟨p, hp, rfl⟩ := List.mem_map.mp hq
      exact QF.mul_denPos (hL p hp).1 (hL p hp).1), List.map_map]
  apply congrArg List.sum
  apply List.map_congr_left
  intro p hp
  show (p.1.mul p.1).toRat = p.1.toRat ^ 2
  rw [QF.mul_toRat]
  ring

theorem olsData_fstSq (df : List GrowthRow) :
    (olsData df).map (fun p => p.1.mul p.1)
      = (List.range df.length).map
          (fun i : Nat => ((⟨(i : Int), 1⟩ : QF).mul ⟨(i : Int), 1⟩)) := by
  have h1 : (olsData df).map (fun p => p.1.mul p.1)
      = ((olsData df).map (fun p => p.1)).map (fun q => q.mul q) := by
    rw [List.map_map]
    rfl
  rw [h1, olsData_fst df, List.map_map]
  rfl

/-- Over the index column `x = 0, 1, …, n−1` the sum of the x-values. -/
theorem sumFst_olsData (df : List GrowthRow) :
    (sumFst (olsData df)).toRat = (df.length : ℚ) * ((df.length : ℚ) - 1) / 2 := by
  unfold sumFst
  rw [olsData_fst df,
    sumQ_toRat ((List.range df.length).map fun i : Nat => (⟨(i : Int), 1⟩ : QF)) (fun q hq => by
      obtain ⟨i, _, rfl⟩ := List.mem_map.mp hq
      exact Int.one_pos), List.map_map]
  have hpt : ∀ i ∈ List.range df.length,
      (QF.toRat ∘ fun i : Nat => (⟨(i : Int), 1⟩ : QF)) i = ((i : Nat) : ℚ) :=
    fun i _ => QF.toRat_natCast i
  rw [List.map_congr_left hpt, range_sum_cast]

/-- Over the index column `x = 0, 1, …, n−1` the sum of the squared x-values. -/
theorem sumFstSq_olsData (df : List GrowthRow) :
    (sumFstSq (olsData df)).toRat
      = (df.length : ℚ) * ((df.length : ℚ) - 1) * (2 * (df.length : ℚ) - 1) / 6 := by
  unfold sumFstSq
  rw [olsData_fstSq df,
    sumQ_toRat ((List.range df.length).map
        fun i : Nat => ((⟨(i : Int), 1⟩ : QF).mul ⟨(i : Int), 1⟩)) (fun q hq => by
      obtain ⟨i, _, rfl⟩ := List.mem_map.mp hq
      exact QF.mul_denPos Int.one_pos Int.one_pos), List.map_map]
  have hpt : ∀ i ∈ List.range df.length,
      (QF.toRat ∘ fun i : Nat => ((⟨(i : Int), 1⟩ : QF).mul ⟨(i : Int), 1⟩)) i
        = ((i : Nat) : ℚ) ^ 2 := by
    intro i _
    show ((⟨(i : Int), 1⟩ : QF).mul ⟨(i : Int), 1⟩).toRat = ((i : Nat) : ℚ) ^ 2
    rw [QF.mul_toRat, QF.toRat_natCast]
    ring
  rw [List.map_congr_left hpt, range_sum_sq_cast]

/-- The rational value of the closed-form slope. -/
theorem olsSlope_toRat (L : List (QF × QF)) (hL : ∀ p ∈ L, 0 < p.1.den ∧ 0 < p.2.den) :
    (olsSlope L).toRat
      = ((L.length : ℚ) * (sumProd L).toRat - (sumFst L).toRat * (sumSnd L).toRat)
        / ((L.length : ℚ) * (sumFstSq L).toRat - (sumFst L).toRat * (sumFst L).toRat) := by
  have hP := sumProd_denPos hL
  have hQd := sumFstSq_denPos hL
  have hX := sumFst_denPos hL
  have hY := sumSnd_denPos hL
  show ((((⟨(L.length : Int), 1⟩ : QF).mul (sumProd L)).sub ((sumFst L).mul (sumSnd L))).div
      (((⟨(L.length : Int), 1⟩ : QF).mul (sumFstSq L)).sub ((sumFst L).mul (sumFst L)))).toRat = _
  rw [QF.div_toRat,
    QF.sub_toRat ((⟨(L.length : Int), 1⟩ : QF).mul (sumProd L)) ((sumFst L).mul (sumSnd L))
      (ne_of_gt (@QF.mul_denPos ⟨(L.length : Int), 1⟩ (sumProd L) Int.one_pos hP))
      (ne_of_gt (QF.mul_denPos hX hY)),
    QF.sub_toRat ((⟨(L.length : Int), 1⟩ : QF).mul (sumFstSq L)) ((sumFst L).mul (sumFst L))
      (ne_of_gt (@QF.mul_denPos ⟨(L.length : Int), 1⟩ (sumFstSq L) Int.one_pos hQd))
      (ne_of_gt (QF.mul_denPos hX hX)),
    QF.mul_toRat, QF.mul_toRat, QF.mul_toRat, QF.mul_toRat, QF.toRat_natCast]

/-- The rational value of the closed-form intercept. -/
theorem olsIntercept_toRat (L : List (QF × QF)) (hL : ∀ p ∈ L, 0 < p.1.den ∧ 0 < p.2.den) :
    (olsIntercept L).toRat
      = ((sumSnd L).toRat - (olsSlope L).toRat * (sumFst L).toRat) / (L.length : ℚ) := by
  have hX := sumFst_denPos hL
  have hY := sumSnd_denPos hL
  have hsl := olsSlope_denPos hL
  show (((sumSnd L).sub ((olsSlope L).mul (sumFst L))).div ⟨(L.length : Int), 1⟩).toRat = _
  rw [QF.div_toRat,
    QF.sub_toRat (sumSnd L) ((olsSlope L).mul (sumFst L)) (ne_of_gt hY)
      (ne_of_gt (QF.mul_denPos hsl hX)),
    QF.mul_toRat, QF.toRat_natCast]

/-- The rational value of the residual sum of squares. -/
theorem sse_toRat (L : List (QF × QF)) (a b : QF) (ha : 0 < a.den) (hb : 0 < b.den)
    (hL : ∀ p ∈ L, 0 < p.1.den ∧ 0 < p.2.den) :
    (sse L a b).toRat
      = (L.map fun p => (p.2.toRat - (a.toRat * p.1.toRat + b.toRat)) ^ 2).sum := by
  unfold sse
  rw [sumQ_toRat (L.map fun p => (p.2.sub ((a.mul p.1).add b)).mul (p.2.sub ((a.mul p.1).add b)))
      (fun q hq => by
        obtain ⟨p, hp, rfl⟩ := List.mem_map.mp hq
        exact QF.mul_denPos
          (QF.sub_denPos (hL p hp).2 (QF.add_denPos (QF.mul_denPos ha (hL p hp).1) hb))
          (QF.sub_denPos (hL p hp).2 (QF.add_denPos (QF.mul_denPos ha (hL p hp).1) hb))),
    List.map_map]
  apply congrArg List.sum
  apply List.map_congr_left
  intro p hp
  show ((p.2.sub ((a.mul p.1).add b)).mul (p.2.sub ((a.mul p.1).add b))).toRat = _
  rw [QF.mul_toRat,
    QF.sub_toRat p.2 ((a.mul p.1).add b) (ne_of_gt (hL p hp).2)
      (ne_of_gt (QF.add_denPos (QF.mul_denPos ha (hL p hp).1) hb)),
    QF.add_toRat (a.mul p.1) b (ne_of_gt (QF.mul_denPos ha (hL p hp).1)) (ne_of_gt hb),
    QF.mul_toRat]
  ring

/-- The closed-form coefficients used by the embedding of `np.polyfit` give
    the least residual sum of squares among all rational lines. -/
theorem sse_min (df : List GrowthRow) (h3 : 3 ≤ df.length)
    (hsub : ∀ r ∈ df, 0 < r.subscribers.den) (a b : QF)
    (ha : 0 < a.den) (hb : 0 < b.den) :
    (sse (olsData df) (olsSlope (olsData df)) (olsIntercept (olsData df))).toRat
      ≤ (sse (olsData df) a b).toRat := by
  have hL := olsData_memDen hsub
  have hsden := olsSlope_denPos hL
  have htden := olsIntercept_denPos hL
  have h3q : (3 : ℚ) ≤ (df.length : ℚ) := by exact_mod_cast h3
  have hn0 : (0 : ℚ) < (df.length : ℚ) := by linarith
  have hexp : ∀ (u v : QF), 0 < u.den → 0 < v.den →
      (sse (olsData df) u v).toRat
        = ((olsData df).map fun p => p.2.toRat ^ 2).sum
          - 2 * u.toRat * (sumProd (olsData df)).toRat
          - 2 * v.toRat * (sumSnd (olsData df)).toRat
          + u.toRat ^ 2 * (sumFstSq (olsData df)).toRat
          + 2 * u.toRat * v.toRat * (sumFst (olsData df)).toRat
          + v.toRat ^ 2 * (df.length : ℚ) := by
    intro u v hu hv
    rw [sse_toRat (olsData df) u v hu hv hL, sse_expand u.toRat v.toRat (olsData df),
      ← sumProd_toRat hL, ← sumSnd_toRat hL, ← sumFstSq_toRat hL, ← sumFst_toRat hL,
      olsData_len df]
  have hD : 0 < (df.length : ℚ) * (sumFstSq (olsData df)).toRat
      - (sumFst (olsData df)).toRat * (sumFst (olsData df)).toRat := by
    rw [sumFstSq_olsData df, sumFst_olsData df]
    have e : (df.length : ℚ)
          * ((df.length : ℚ) * ((df.length : ℚ) - 1) * (2 * (df.length : ℚ) - 1) / 6)
        - ((df.length : ℚ) * ((df.length : ℚ) - 1) / 2)
          * ((df.length : ℚ) * ((df.length : ℚ) - 1) / 2)
        = (df.length : ℚ) * (df.length : ℚ) * ((df.length : ℚ) - 1) * ((df.length : ℚ) + 1)
          / 12 := by
      ring
    rw [e]
    have f1 : 0 < (df.length : ℚ) - 1 := by linarith
    have f2 : 0 < (df.length : ℚ) + 1 := by linarith
    have := mul_pos (mul_pos (mul_pos hn0 hn0) f1) f2
    linarith
  have hs := olsSlope_toRat (olsData df) hL
  have ht := olsIntercept_toRat (olsData df) hL
  rw [olsData_len df] at hs ht
  rw [hs] at ht
  have key := ols_key_ineq (df.length : ℚ) (sumFst (olsData df)).toRat
    (sumFstSq (olsData df)).toRat (sumProd (olsData df)).toRat (sumSnd (olsData df)).toRat
    a.toRat b.toRat hn0 hD
  rw [hexp (olsSlope (olsData df)) (olsIntercept (olsData df)) hsden htden,
    hexp a b ha hb, hs, ht]
  linarith [key]

/-- Timeline rows exercising the C8 witness (the C7 example data). -/
def c8W : List GrowthRow :=
  [⟨⟨2020, 1⟩, ⟨1000, 1⟩, ⟨10, 1⟩⟩, ⟨⟨2021, 1⟩, ⟨1100, 1⟩, ⟨12, 1⟩⟩,
   ⟨⟨2022, 1⟩, ⟨1210, 1⟩, ⟨14, 1⟩⟩]

/-- Rows whose exact next-period prediction is 8/3: truncation and
    rounding disagree. -/
def c8C : List GrowthRow :=
  [⟨⟨2020, 1⟩, ⟨0, 1⟩, ⟨0, 1⟩⟩, ⟨⟨2021, 1⟩, ⟨0, 1⟩, ⟨0, 1⟩⟩, ⟨⟨2022, 1⟩, ⟨2, 1⟩, ⟨0, 1⟩⟩]

/-- C8 counterexample: `int()` truncates toward zero instead of rounding to
    the nearest integer.  On a timeline whose least-squares prediction for
    the next period is exactly 8/3, `calculate_trend_prediction` reports
    `predicted_next_year = 2`, while the nearest integer to 8/3 is 3. -/
theorem trend_truncates_cex :
    objGet (calculate_trend_prediction c8C 1) "predicted_next_year" = some (.intVal 2)
    ∧ (((olsSlope (olsData c8C)).mul ⟨(c8C.length : Int), 1⟩).add
        (olsIntercept (olsData c8C))).toRat = 8 / 3
    ∧ round ((8 : ℚ) / 3) = 3 := by
  refine ⟨rfl, ?_, by norm_num [round_eq]⟩
  have hv : ((olsSlope (olsData c8C)).mul ⟨(c8C.length : Int), 1⟩).add
      (olsIntercept (olsData c8C)) = ⟨288, 108⟩ := by decide
  rw [hv]
  show ((288 : Int) : ℚ) / ((108 : Int) : ℚ) = 8 / 3
  norm_num

/-- C8: with fewer than 3 rows the prediction is reported unavailable; with
    at least 3 rows the returned object carries the slope and intercept of
    the least-squares line over index-versus-subscribers (the reported
    coefficients minimize the residual sum of squares among all lines), the
    R² value, the strength label with strict thresholds 0.7 / 0.4, and a
    predicted next value obtained by `int()`-truncating the line at the next
    index — truncation toward zero, not rounding to the nearest integer
    (see the counterexample).  On a constant subscriber column `ss_tot` is
    zero, the floating-point R² is NaN (`0.0 / 0.0`), both threshold
    comparisons are False, and the label is "weak" (third conjunct). -/
theorem trend_prediction_spec (df : List GrowthRow)
    (hsub : ∀ r ∈ df, 0 < r.subscribers.den) :
    (df.length < 3 →
      calculate_trend_prediction df 1 = .obj [("prediction_available", .bool false)])
    ∧ (3 ≤ df.length →
        calculate_trend_prediction df 1 = .obj
          [("prediction_available", .bool true),
           ("slope", .floatVal (olsSlope (olsData df))),
           ("r_squared", jsonOfR2 (olsR2 (olsData df))),
           ("trend_strength", .str
             (if qltN ⟨7, 10⟩ (olsR2 (olsData df)) then "strong"
              else if qltN ⟨4, 10⟩ (olsR2 (olsData df)) then "moderate" else "weak")),
           ("predicted_next_year", .intVal
             (((olsSlope (olsData df)).mul ⟨(df.length : Int), 1⟩).add
               (olsIntercept (olsData df))).trunc)]
        ∧ ∀ a b : QF, 0 < a.den → 0 < b.den →
            (sse (olsData df) (olsSlope (olsData df)) (olsIntercept (olsData df))).toRat
              ≤ (sse (olsData df) a b).toRat)
    ∧ (3 ≤ df.length → (sstot (olsData df)).num = 0 →
        objGet (calculate_trend_prediction df 1) "r_squared" = some .nan
        ∧ objGet (calculate_trend_prediction df 1) "trend_strength"
            = some (.str "weak")) := by
  have hobj : 3 ≤ df.length →
      calculate_trend_prediction df 1 = .obj
        [("prediction_available", .bool true),
         ("slope", .floatVal (olsSlope (olsData df))),
         ("r_squared", jsonOfR2 (olsR2 (olsData df))),
         ("trend_strength", .str
           (if qltN ⟨7, 10⟩ (olsR2 (olsData df)) then "strong"
            else if qltN ⟨4, 10⟩ (olsR2 (olsData df)) then "moderate" else "weak")),
         ("predicted_next_year", .intVal
           (((olsSlope (olsData df)).mul ⟨(df.length : Int), 1⟩).add
             (olsIntercept (olsData df))).trunc)] := by
    intro h3
    rw [calculate_trend_prediction, if_neg (Nat.not_lt.mpr h3)]
    rfl
  refine ⟨?_, fun h3 => ⟨hobj h3, fun a b ha hb => sse_min df h3 hsub a b ha hb⟩, ?_⟩
  · intro h
    rw [calculate_trend_prediction, if_pos h]
  · intro h3 hz
    have hr2 : olsR2 (olsData df) = none := by
      unfold olsR2
      rw [if_pos hz]
    rw [hobj h3, hr2]
    exact ⟨rfl, rfl⟩

/-- A constant-subscribers timeline: `ss_tot = 0`, so the program's R² is
    NaN and the strength label falls through to "weak". -/
def c8Z : List GrowthRow :=
  [⟨⟨2020, 1⟩, ⟨5, 1⟩, ⟨1, 1⟩⟩, ⟨⟨2021, 1⟩, ⟨5, 1⟩, ⟨1, 1⟩⟩, ⟨⟨2022, 1⟩, ⟨5, 1⟩, ⟨1, 1⟩⟩]

theorem trend_prediction_spec_witness :
    ((sse (olsData c8W) (olsSlope (olsData c8W)) (olsIntercept (olsData c8W))).toRat
        ≤ (sse (olsData c8W) (QF.ofInt 3) (QF.ofInt 7)).toRat)
    ∧ objGet (calculate_trend_prediction c8Z 1) "r_squared" = some .nan
    ∧ objGet (calculate_trend_prediction c8Z 1) "trend_strength" = some (.str "weak") :=
  ⟨((trend_prediction_spec c8W (by decide)).2.1 (by decide)).2 (QF.ofInt 3) (QF.ofInt 7)
      (by decide) (by decide),
   ((trend_prediction_spec c8Z (by decide)).2.2 (by decide) (by decide)).1,
   ((trend_prediction_spec c8Z (by decide)).2.2 (by decide) (by decide)).2⟩



/-- Dropping while `p` skips a prefix on which `p` holds everywhere. -/
theorem dropWhile_all_append (p : Char → Bool) : ∀ (a l : List Char),
    (∀ x ∈ a, p x = true) → (a ++ l).dropWhile p = l.dropWhile p := by
  intro a
  induction a with
  | nil => intro l _; rw [List.nil_append]
  | cons x a' ih =>
    intro l ha
    rw [List.cons_append, List.dropWhile_cons_of_pos (ha x (by simp))]
    exact ih l fun y hy => ha y (by simp [hy])

/-- The lazy group stops at the first closing brace that is followed, after
    whitespace, by a closing triple backtick: when the content before that
    brace has no brace of its own, the capture is exactly the braced span. -/
theorem lazyCap_hit : ∀ (mid acc ws2 suf : List Char),
    (∀ x ∈ mid, x ≠ '}') → (∀ x ∈ ws2, isSpc x = true) →
    lazyCap (mid ++ '}' :: (ws2 ++ (backticks ++ suf))) acc
      = some ('{' :: (acc.reverse ++ (mid ++ ['}']))) := by
  intro mid
  induction mid with
  | nil =>
    intro acc ws2 suf _ hws2
    rw [List.nil_append]
    unfold lazyCap
    rw [if_pos]
    · simp
    · refine ⟨rfl, ?_⟩
      rw [dropWhile_all_append isSpc ws2 _ hws2]
      have hbt : (backticks ++ suf).dropWhile isSpc = backticks ++ suf := by
        simp [backticks, List.dropWhile, isSpc]
      rw [hbt]
      exact List.isPrefixOf_iff_prefix.mpr (List.prefix_append _ _)
  | cons x mid' ih =>
    intro acc ws2 suf hmid hws2
    rw [List.cons_append]
    unfold lazyCap
    rw [if_neg]
    · rw [ih (x :: acc) ws2 suf (fun y hy => hmid y (by simp [hy])) hws2]
      simp
    · intro hcon
      exact hmid x (by simp) hcon.1

/-- A labeled fence whose whitespace and span are well-shaped matches the
    fenced-block pattern at its own position. -/
theorem tryFence_hit (ws1 mid ws2 suf : List Char)
    (hws1 : ∀ x ∈ ws1, isSpc x = true) (hws2 : ∀ x ∈ ws2, isSpc x = true)
    (hmid : ∀ x ∈ mid, x ≠ '}') :
    tryFence markerJson
        (markerJson ++ (ws1 ++ ('{' :: (mid ++ '}' :: (ws2 ++ (backticks ++ suf))))))
      = some ('{' :: (mid ++ ['}'])) := by
  unfold tryFence
  rw [if_pos (List.isPrefixOf_iff_prefix.mpr (List.prefix_append _ _)), List.drop_left,
    dropWhile_all_append isSpc ws1 _ hws1]
  have hb : ('{' :: (mid ++ '}' :: (ws2 ++ (backticks ++ suf)))).dropWhile isSpc
      = '{' :: (mid ++ '}' :: (ws2 ++ (backticks ++ suf))) := by
    simp [List.dropWhile, isSpc]
  rw [hb]
  show lazyCap (mid ++ '}' :: (ws2 ++ (backticks ++ suf))) [] = some ('{' :: (mid ++ ['}']))
  exact lazyCap_hit mid [] ws2 suf hmid hws2

/-- `re.search` skips a backtick-free prefix: no fence pattern can start
    inside it. -/
theorem fenceSearch_skip : ∀ (pre l : List Char), (∀ x ∈ pre, x ≠ '`') →
    fenceSearch markerJson (pre ++ l) = fenceSearch markerJson l := by
  intro pre
  induction pre with
  | nil => intro l _; rw [List.nil_append]
  | cons x pre' ih =>
    intro l hpre
    rw [List.cons_append]
    have htf : tryFence markerJson (x :: (pre' ++ l)) = none := by
      have hnp : ¬ (markerJson.isPrefixOf (x :: (pre' ++ l)) = true) := by
        intro hpf
        obtain ⟨t, ht⟩ := List.isPrefixOf_iff_prefix.mp hpf
        have h2 := congrArg List.head? ht
        simp [markerJson] at h2
        exact hpre x (by simp) h2.symm
      unfold tryFence
      rw [if_neg hnp]
    have hstep : fenceSearch markerJson (x :: (pre' ++ l))
        = fenceSearch markerJson (pre' ++ l) := by
      show (match tryFence markerJson (x :: (pre' ++ l)) with
        | some cap => some cap
        | none => fenceSearch markerJson (pre' ++ l)) = fenceSearch markerJson (pre' ++ l)
      rw [htf]
    rw [hstep]
    exact ih l fun y hy => hpre y (by simp [hy])

theorem fenceSearch_cons_hit (m : List Char) (c : Char) (rest cap : List Char)
    (h : tryFence m (c :: rest) = some cap) :
    fenceSearch m (c :: rest) = some cap := by
  unfold fenceSearch
  rw [h]

/-- C1 (amended): when the stripped text is not itself valid JSON and its
    FIRST labeled fence — the one after a backtick-free prefix — wraps a
    whitespace-delimited brace span `{mid}` whose content has no closing
    brace and which parses as JSON, `extract_json` returns exactly that
    parse.  The strategies run in the order direct parse, labeled fence,
    unlabeled fence, brace substring, first success winning; but within the
    fence strategy only the leftmost regex match is ever attempted, so the
    claim as stated (any well-formed fenced object is found) fails — see
    the two-fence counterexample. -/
theorem extract_json_labeled_fence (text pre ws1 mid ws2 suf : List Char) (v : Json)
    (hne : text ≠ [])
    (hdirect : jsonLoads (pyStrip text) = none)
    (hshape : pyStrip text
      = pre ++ (markerJson ++ (ws1 ++ ('{' :: (mid ++ '}' :: (ws2 ++ (backticks ++ suf)))))))
    (hpre : ∀ x ∈ pre, x ≠ '`')
    (hws1 : ∀ x ∈ ws1, isSpc x = true)
    (hws2 : ∀ x ∈ ws2, isSpc x = true)
    (hmid : ∀ x ∈ mid, x ≠ '}')
    (hjson : jsonLoads ('{' :: (mid ++ ['}'])) = some v) :
    extract_json text = .ok v := by
  have hsearch : fenceSearch markerJson (pyStrip text) = some ('{' :: (mid ++ ['}'])) := by
    rw [hshape, fenceSearch_skip pre _ hpre]
    exact fenceSearch_cons_hit markerJson _ _ _ (tryFence_hit ws1 mid ws2 suf hws1 hws2 hmid)
  unfold extract_json
  rw [if_neg hne]
  change (match jsonLoads (pyStrip text) with
    | some v => Except.ok v
    | none => extractStage1 (pyStrip text)) = Except.ok v
  rw [hdirect]
  unfold extractStage1
  rw [hsearch]
  change (match jsonLoads ('{' :: (mid ++ ['}'])) with
    | some v => (Except.ok v : Except JErr Json)
    | none => extractStage2 (pyStrip text)) = Except.ok v
  rw [hjson]

/-- C1 counterexample: two labeled fences, the first malformed, the second
    holding a well-formed JSON object.  `re.search` yields only the leftmost
    match per pattern, so the labeled-fence strategy parses the malformed
    first span and fails, the remaining strategies fail too, and
    `extract_json` raises instead of returning the second fence's object. -/
theorem extract_json_first_fence_cex :
    extract_json ("```json\n\x7boops\x7d\n```\n```json\n\x7b\"a\": 1\x7d\n```").toList
      = .error .parseFailure
    ∧ jsonLoads ("\x7b\"a\": 1\x7d").toList = some (.obj [("a", .intVal 1)]) :=
  ⟨rfl, rfl⟩

theorem extract_json_labeled_fence_witness :
    extract_json ("noise ```json\n\x7b\"k\": 2\x7d\n``` tail").toList
      = .ok (.obj [("k", .intVal 2)]) :=
  extract_json_labeled_fence ("noise ```json\n\x7b\"k\": 2\x7d\n``` tail").toList
    "noise ".toList "\n".toList "\"k\": 2".toList "\n".toList " tail".toList
    (.obj [("k", .intVal 2)])
    (by decide) rfl rfl (by decide) (by decide) (by decide) (by decide) rfl


end YTI
